import Mathlib

/-!
Verification of the Photon Maze core: the 2D vector module (src/js/vec2.js),
the ray tracer of the game engine (src/js/config.js: `PhotonGame.traceRay`,
`getLineIntersection`, `segmentCircleIntersect`, `calculateNormal`,
`spawnParticles`) and the depth-first maze generator (src/js/maze.js:
`MazeGenerator.generate`).

Numbers are modelled as real numbers.  The engine's mutable per-shot state
(current position, direction, accumulated path, bounce counter, hit flag) is
threaded explicitly through a fuel-indexed loop, the fuel being the
`maxBounces` loop bound of the source.  Engine state touched by the tracer
(the particle list fed by `spawnParticles`, with its ambient randomness) is
modelled by explicit state passing in a second, instrumented copy of the
loop, related to the pure one by a projection lemma.
-/

namespace PhotonMaze

/-! ### Vector module (src/js/vec2.js) -/

@[ext] structure Vec2 where
  x : ℝ
  y : ℝ

namespace Vec2

def add (a b : Vec2) : Vec2 := ⟨a.x + b.x, a.y + b.y⟩

def sub (a b : Vec2) : Vec2 := ⟨a.x - b.x, a.y - b.y⟩

def mult (v : Vec2) (n : ℝ) : Vec2 := ⟨v.x * n, v.y * n⟩

def dot (a b : Vec2) : ℝ := a.x * b.x + a.y * b.y

noncomputable def mag (v : Vec2) : ℝ := Real.sqrt (v.x ^ 2 + v.y ^ 2)

/-- `normalize v` is `v/|v|`, and the zero vector when `|v| = 0`
(the `m ? v/m : 0` of the source). -/
noncomputable def normalize (v : Vec2) : Vec2 :=
  if mag v = 0 then ⟨0, 0⟩ else ⟨v.x / mag v, v.y / mag v⟩

noncomputable def dist (a b : Vec2) : ℝ :=
  Real.sqrt ((a.x - b.x) ^ 2 + (a.y - b.y) ^ 2)

end Vec2

/-! ### Data model of the tracer (src/js/config.js) -/

inductive WallType
  | mirror
  | glass
  | absorb
deriving DecidableEq

structure Wall where
  a : Vec2
  b : Vec2
  type : WallType
  normal : Vec2

structure Target where
  center : Vec2
  r : ℝ

structure TraceResult where
  path : List Vec2
  success : Bool

/-- CONFIG.defaultMaxBounces. -/
def defaultMaxBounces : ℤ := 20

/-- CONFIG.complexMaxBounces. -/
def complexMaxBounces : ℤ := 150

noncomputable section

/-- CONFIG.airIndex. -/
def airIndex : ℝ := 1.0

/-- CONFIG.refractiveIndex (inside glass). -/
def refractiveIndex : ℝ := 1.5

/-- The self-intersection guard of `traceRay`. -/
def epsilon : ℝ := 0.01

/-- `PhotonGame.calculateNormal`: unit normal of the segment `a`–`b`. -/
def calculateNormal (a b : Vec2) : Vec2 :=
  Vec2.normalize ⟨-(b.y - a.y), b.x - a.x⟩

/-- `PhotonGame.getLineIntersection`: parametric ray/segment solver.
Returns the ray parameter `t` and the hit point, or `none` for a
near-parallel pair or an intersection outside the ray/segment bounds. -/
def getLineIntersection (p d a b : Vec2) : Option (ℝ × Vec2) :=
  let v1 : Vec2 := ⟨p.x - a.x, p.y - a.y⟩
  let v2 : Vec2 := ⟨b.x - a.x, b.y - a.y⟩
  let v3 : Vec2 := ⟨-d.y, d.x⟩
  let dt := Vec2.dot v2 v3
  if |dt| < 0.00001 then none
  else
    let t1 := (v2.x * v1.y - v2.y * v1.x) / dt
    let t2 := Vec2.dot v1 v3 / dt
    if 0 ≤ t1 ∧ 0 ≤ t2 ∧ t2 ≤ 1 then
      some (t1, ⟨p.x + t1 * d.x, p.y + t1 * d.y⟩)
    else none

/-- `PhotonGame.segmentCircleIntersect`: does the segment `p1`–`p2` pass
within the circle's radius?  (Closest-point-on-segment test, `t` clamped
to `[0,1]`.) -/
def segmentCircleIntersect (p1 p2 : Vec2) (circle : Target) : Bool :=
  let L2 := Vec2.dist p1 p2 ^ 2
  if L2 = 0 then decide (Vec2.dist p1 circle.center < circle.r)
  else
    let t := ((circle.center.x - p1.x) * (p2.x - p1.x) +
              (circle.center.y - p1.y) * (p2.y - p1.y)) / L2
    let tc := max 0 (min 1 t)
    let proj : Vec2 := ⟨p1.x + tc * (p2.x - p1.x), p1.y + tc * (p2.y - p1.y)⟩
    decide (Vec2.dist circle.center proj < circle.r)

/-- The mirror branch of `traceRay`: orient the stored normal against the
incoming direction, reflect, renormalize. -/
def mirrorStep (dir n0 : Vec2) : Vec2 :=
  let normal := if 0 < Vec2.dot dir n0 then Vec2.mult n0 (-1) else n0
  Vec2.normalize (Vec2.sub dir (Vec2.mult normal (2 * Vec2.dot dir normal)))

/-- The glass branch of `traceRay`: Snell refraction with total internal
reflection fallback.  When exiting (`dot dir n0 ≥ 0`) the normal is flipped
and the refractive indices are swapped. -/
def glassStep (dir n0 : Vec2) : Vec2 :=
  let entering := Vec2.dot dir n0 < 0
  let normal := if entering then n0 else Vec2.mult n0 (-1)
  let n1 := if entering then airIndex else refractiveIndex
  let n2 := if entering then refractiveIndex else airIndex
  let n := n1 / n2
  let cosI := -Vec2.dot normal dir
  let sinT2 := n * n * (1 - cosI * cosI)
  if 1 < sinT2 then
    Vec2.normalize (Vec2.sub dir (Vec2.mult normal (2 * Vec2.dot dir normal)))
  else
    let cosT := Real.sqrt (1 - sinT2)
    Vec2.add (Vec2.mult dir n) (Vec2.mult normal (n * cosI - cosT))

/-- The nearest-hit scan of `traceRay`: minimum-`t` valid intersection with
`t` beyond the self-intersection `epsilon`, first wall winning ties. -/
def closestHit (walls : List Wall) (p d : Vec2) : Option (ℝ × Vec2 × Wall) :=
  walls.foldl
    (fun acc w =>
      match getLineIntersection p d w.a w.b with
      | none => acc
      | some (t, pt) =>
        match acc with
        | none => if epsilon < t then some (t, pt, w) else acc
        | some (mt, _, _) =>
          if epsilon < t ∧ t < mt then some (t, pt, w) else acc)
    none

/-- The bounce loop of `traceRay`.  One fuel unit per loop iteration; state
is (position, direction, accumulated path, hit-target flag). -/
def traceLoop (walls : List Wall) (tgt : Target) :
    ℕ → Vec2 → Vec2 → List Vec2 → Bool → List Vec2 × Bool
  | 0, _, _, pts, ht => (pts, ht)
  | fuel + 1, pos, dir, pts, ht =>
    match closestHit walls pos dir with
    | none => (pts ++ [⟨pos.x + dir.x * 2000, pos.y + dir.y * 2000⟩], ht)
    | some (_, pt, w) =>
      let ht' := ht || segmentCircleIntersect pos pt tgt
      let pts' := pts ++ [pt]
      match w.type with
      | WallType.absorb => (pts', ht')
      | WallType.mirror =>
        let dir' := mirrorStep dir w.normal
        if ht' then (pts', ht') else traceLoop walls tgt fuel pt dir' pts' ht'
      | WallType.glass =>
        let dir' := glassStep dir w.normal
        if ht' then (pts', ht') else traceLoop walls tgt fuel pt dir' pts' ht'

/-- `PhotonGame.traceRay`. -/
def traceRay (walls : List Wall) (tgt : Target) (maxBounces : ℤ)
    (start dir : Vec2) : TraceResult :=
  let r := traceLoop walls tgt maxBounces.toNat start (Vec2.normalize dir)
    [start] false
  ⟨r.1, r.2⟩

/-- The clamped closest-point-on-segment-to-circle-center distance computed
inside `segmentCircleIntersect` (spec-side name for the quantity the code
compares against the radius). -/
def distToSegment (circle : Target) (p1 p2 : Vec2) : ℝ :=
  if Vec2.dist p1 p2 ^ 2 = 0 then Vec2.dist p1 circle.center
  else
    let t := ((circle.center.x - p1.x) * (p2.x - p1.x) +
              (circle.center.y - p1.y) * (p2.y - p1.y)) / (Vec2.dist p1 p2 ^ 2)
    let tc := max 0 (min 1 t)
    Vec2.dist circle.center ⟨p1.x + tc * (p2.x - p1.x), p1.y + tc * (p2.y - p1.y)⟩

/-- Does some consecutive pair of path points pass within the target's
radius?  (Spec-side predicate used to state the success conditions.) -/
def pathHits (tgt : Target) : List Vec2 → Bool
  | a :: b :: rest => segmentCircleIntersect a b tgt || pathHits tgt (b :: rest)
  | _ => false

/-- The mirror wall of the spec's concrete scenario: vertical segment from
(50,0) to (50,100), with the normal computed at creation as in `addWall`. -/
def scenarioWall : Wall :=
  ⟨⟨50, 0⟩, ⟨50, 100⟩, WallType.mirror, calculateNormal ⟨50, 0⟩ ⟨50, 100⟩⟩

/-- A hit-effect particle (`PhotonGame.spawnParticles`). -/
structure Particle where
  x : ℝ
  y : ℝ
  vx : ℝ
  vy : ℝ
  life : ℝ
  color : String

/-- `PhotonGame.spawnParticles`: pushes 3 particles with random angle and
speed onto the engine's particle list.  `rng` models `Math.random()` as a
stream of draws, `k` the index of the next draw (each particle consumes an
angle draw and a speed draw). -/
def spawnParticles (rng : ℕ → ℝ) (pos : Vec2) (color : String)
    (speedScale : ℝ) (ps : List Particle) (k : ℕ) : List Particle × ℕ :=
  let mk : ℕ → Particle := fun i =>
    let angle := rng i * Real.pi * 2
    let speed := rng (i + 1) * speedScale + 1
    ⟨pos.x, pos.y, Real.cos angle * speed, Real.sin angle * speed, 1, color⟩
  (ps ++ [mk k, mk (k + 2), mk (k + 4)], k + 6)

/-- The engine state a `traceRay` call reads or writes: the wall list, the
target and the bounce limit (read), and the particle list with its ambient
randomness (written by `spawnParticles` on mirror and glass bounces). -/
structure EngineState where
  walls : List Wall
  target : Target
  maxBounces : ℤ
  particles : List Particle
  rng : ℕ → ℝ
  rngIdx : ℕ

/-- The bounce loop of `traceRay` with its engine-state effects made
explicit: identical to `traceLoop` except that the mirror and glass
branches also run `spawnParticles` exactly as the source does. -/
def traceLoopS (walls : List Wall) (tgt : Target) (rng : ℕ → ℝ) :
    ℕ → Vec2 → Vec2 → List Vec2 → Bool → List Particle → ℕ →
      (List Vec2 × Bool) × List Particle × ℕ
  | 0, _, _, pts, ht, ps, k => ((pts, ht), ps, k)
  | fuel + 1, pos, dir, pts, ht, ps, k =>
    match closestHit walls pos dir with
    | none => ((pts ++ [⟨pos.x + dir.x * 2000, pos.y + dir.y * 2000⟩], ht), ps, k)
    | some (_, pt, w) =>
      let ht' := ht || segmentCircleIntersect pos pt tgt
      let pts' := pts ++ [pt]
      match w.type with
      | WallType.absorb => ((pts', ht'), ps, k)
      | WallType.mirror =>
        let dir' := mirrorStep dir w.normal
        let psk := spawnParticles rng pt "#00ccff" 2 ps k
        if ht' then ((pts', ht'), psk)
        else traceLoopS walls tgt rng fuel pt dir' pts' ht' psk.1 psk.2
      | WallType.glass =>
        let dir' := glassStep dir w.normal
        let psk := spawnParticles rng pt "#fff" 1 ps k
        if ht' then ((pts', ht'), psk)
        else traceLoopS walls tgt rng fuel pt dir' pts' ht' psk.1 psk.2

/-- `PhotonGame.traceRay` as a transformer of the engine state: returns the
trace result together with the updated state. -/
def traceRayS (s : EngineState) (start dir : Vec2) :
    TraceResult × EngineState :=
  let r := traceLoopS s.walls s.target s.rng s.maxBounces.toNat start
    (Vec2.normalize dir) [start] false s.particles s.rngIdx
  (⟨r.1.1, r.1.2⟩, { s with particles := r.2.1, rngIdx := r.2.2 })

/-! ### Spec-side quantities of the glass branch.

These name, following the spec's wording, the oriented normal, the index
ratio `n = n_from/n_to`, `cosIncidence` and `sin²Transmitted` that the glass
branch of `traceRay` computes internally. -/

/-- The wall normal oriented against the ray: flipped when exiting. -/
def glassNormal (d n0 : Vec2) : Vec2 :=
  if Vec2.dot d n0 < 0 then n0 else Vec2.mult n0 (-1)

/-- The index ratio `n = n_from / n_to` (indices swapped when exiting). -/
def glassN (d n0 : Vec2) : ℝ :=
  if Vec2.dot d n0 < 0 then airIndex / refractiveIndex
  else refractiveIndex / airIndex

/-- `cosIncidence = -dot(normal, direction)`. -/
def glassCosI (d n0 : Vec2) : ℝ := -Vec2.dot (glassNormal d n0) d

/-- `sin²Transmitted = n² * (1 - cosIncidence²)`. -/
def glassSinT2 (d n0 : Vec2) : ℝ :=
  glassN d n0 * glassN d n0 * (1 - glassCosI d n0 * glassCosI d n0)

/-! ### Maze generator (src/js/maze.js)

The mutable `grid[row][col]` array of cells is modelled as a total function
from (col, row) coordinates to cells, mutation as pointwise update; the DFS
stack holds coordinates (the source holds references into the mutable
grid).  The unbounded `while (stack.length)` loop is run on fuel
`2 * cols * rows`, which the termination measure (two units per unvisited
cell plus one per stack entry) never exhausts. -/

namespace MazeGenerator

/-- Cell coordinates (col, row): the source's `{x, y}`. -/
abbrev Pos := ℕ × ℕ

structure Walls4 where
  top : Bool
  right : Bool
  bottom : Bool
  left : Bool
deriving DecidableEq

/-- A maze cell: `{visited, walls:{top,right,bottom,left}}`. -/
structure Cell where
  visited : Bool
  walls : Walls4
deriving DecidableEq

def Grid : Type := Pos → Cell

/-- A fresh cell: unvisited, all four walls present. -/
def initCell : Cell := ⟨false, ⟨true, true, true, true⟩⟩

def initGrid : Grid := fun _ => initCell

/-- Pointwise update of the mutable grid. -/
def updateCell (g : Grid) (p : Pos) (f : Cell → Cell) : Grid :=
  fun q => if q = p then f (g q) else g q

def setVisited (g : Grid) (p : Pos) : Grid :=
  updateCell g p (fun c => ⟨true, c.walls⟩)

/-- The unvisited grid neighbors of `p`, in source order: up, right, down,
left (bounds-checked). -/
def unvisitedNeighbors (cols rows : ℕ) (g : Grid) (p : Pos) : List Pos :=
  (if 0 < p.2 ∧ (g (p.1, p.2 - 1)).visited = false then [(p.1, p.2 - 1)] else []) ++
  (if p.1 + 1 < cols ∧ (g (p.1 + 1, p.2)).visited = false then [(p.1 + 1, p.2)] else []) ++
  (if p.2 + 1 < rows ∧ (g (p.1, p.2 + 1)).visited = false then [(p.1, p.2 + 1)] else []) ++
  (if 0 < p.1 ∧ (g (p.1 - 1, p.2)).visited = false then [(p.1 - 1, p.2)] else [])

/-- Remove the shared wall between `cur` and the chosen neighbor `nxt`
(both cells' facing flags are cleared, as in the source). -/
def removeWallBetween (g : Grid) (cur nxt : Pos) : Grid :=
  if cur.1 < nxt.1 then
    updateCell (updateCell g cur
        (fun c => ⟨c.visited, {c.walls with right := false}⟩))
      nxt (fun c => ⟨c.visited, {c.walls with left := false}⟩)
  else if nxt.1 < cur.1 then
    updateCell (updateCell g cur
        (fun c => ⟨c.visited, {c.walls with left := false}⟩))
      nxt (fun c => ⟨c.visited, {c.walls with right := false}⟩)
  else if cur.2 < nxt.2 then
    updateCell (updateCell g cur
        (fun c => ⟨c.visited, {c.walls with bottom := false}⟩))
      nxt (fun c => ⟨c.visited, {c.walls with top := false}⟩)
  else
    updateCell (updateCell g cur
        (fun c => ⟨c.visited, {c.walls with top := false}⟩))
      nxt (fun c => ⟨c.visited, {c.walls with bottom := false}⟩)

/-- The DFS backtracking loop of `generate`.  `rng k % N.length` models the
uniform neighbor pick `N[Math.random()*N.length|0]`; `k` counts the draws
consumed. -/
def carveLoop (cols rows : ℕ) (rng : ℕ → ℕ) :
    ℕ → Grid → List Pos → ℕ → Grid
  | 0, g, _, _ => g
  | fuel + 1, g, stack, k =>
    match stack with
    | [] => g
    | cur :: rest =>
      let N := unvisitedNeighbors cols rows g cur
      if N.isEmpty then carveLoop cols rows rng fuel g rest k
      else
        let nxt := N.getD (rng k % N.length) (0, 0)
        carveLoop cols rows rng fuel
          (setVisited (removeWallBetween g cur nxt) nxt)
          (nxt :: cur :: rest) (k + 1)

/-- The carve phase of `MazeGenerator.generate`: mark (0,0) visited, run the
DFS loop on the fresh grid. -/
def carve (cols rows : ℕ) (rng : ℕ → ℕ) : Grid :=
  carveLoop cols rows rng (2 * (cols * rows))
    (setVisited initGrid (0, 0)) [(0, 0)] 0

inductive MazeWallType
  | mirror
  | glass
deriving DecidableEq

/-- An emitted wall line in normalized [0,1]×[0,1] coordinates. -/
structure MazeWall where
  x1 : ℚ
  y1 : ℚ
  x2 : ℚ
  y2 : ℚ
  type : MazeWallType
deriving DecidableEq

/-- Wall emission for one cell: its right wall then its bottom wall, each
kept when the flag survived carving and the gap-punch draw exceeds the
break chance 0.35, and typed glass when the type draw exceeds 0.9.  `rngQ`
models the `Math.random()` draws (consumed only when the corresponding
short-circuit condition reaches them, as in the source). -/
def emitCell (cols rows : ℕ) (g : Grid) (rngQ : ℕ → ℚ) (c r : ℕ)
    (acc : List MazeWall × ℕ) : List MazeWall × ℕ :=
  let ws := acc.1
  let k := acc.2
  let step1 : List MazeWall × ℕ :=
    if c + 1 < cols ∧ (g (c, r)).walls.right = true then
      if rngQ k > 0.35 then
        (ws ++ [⟨((c : ℚ) + 1) / cols, (r : ℚ) / rows, ((c : ℚ) + 1) / cols,
          ((r : ℚ) + 1) / rows,
          if rngQ (k + 1) > 0.9 then MazeWallType.glass else MazeWallType.mirror⟩],
          k + 2)
      else (ws, k + 1)
    else (ws, k)
  if r + 1 < rows ∧ (g (c, r)).walls.bottom = true then
    if rngQ step1.2 > 0.35 then
      (step1.1 ++ [⟨(c : ℚ) / cols, ((r : ℚ) + 1) / rows, ((c : ℚ) + 1) / cols,
        ((r : ℚ) + 1) / rows,
        if rngQ (step1.2 + 1) > 0.9 then MazeWallType.glass else MazeWallType.mirror⟩],
        step1.2 + 2)
    else (step1.1, step1.2 + 1)
  else step1

/-- The grid-to-lines conversion of `generate`: row-major scan over the
cells. -/
def emitWalls (cols rows : ℕ) (g : Grid) (rngQ : ℕ → ℚ) : List MazeWall :=
  ((List.range rows).foldl (fun acc r =>
    (List.range cols).foldl (fun acc2 c => emitCell cols rows g rngQ c r acc2)
      acc) ([], 0)).1

/-- How a `generate` call can fail.  `typeError` is the runtime TypeError a
JS undefined-dereference throws; `invalidArgument` is the explicit
invalid-argument rejection the spec's contract asks for (never produced by
the source). -/
inductive GenError
  | typeError
  | invalidArgument
deriving DecidableEq

/-- `MazeGenerator.generate`.  The source builds the `rows × cols` grid and
then runs `stack[0].visited = true` with `stack = [grid[0][0]]`; when
`rows ≤ 0` or `cols ≤ 0` the cell `grid[0][0]` does not exist (the grid has
no row 0, or row 0 is empty) and the dereference throws a runtime
TypeError—modelled as `Except.error .typeError`.  There is no argument
validation. -/
def generate (cols rows : ℤ) (rngN : ℕ → ℕ) (rngQ : ℕ → ℚ) :
    Except GenError (List MazeWall) :=
  if 0 < rows ∧ 0 < cols then
    Except.ok
      (emitWalls cols.toNat rows.toNat (carve cols.toNat rows.toNat rngN) rngQ)
  else Except.error GenError.typeError

/-- In-bounds positions of the `rows × cols` grid. -/
def InBounds (cols rows : ℕ) (p : Pos) : Prop := p.1 < cols ∧ p.2 < rows

/-- Grid adjacency (edges of the `rows × cols` lattice). -/
def gridAdj (cols rows : ℕ) (p q : Pos) : Prop :=
  InBounds cols rows p ∧ InBounds cols rows q ∧
    (q = (p.1 + 1, p.2) ∨ p = (q.1 + 1, q.2) ∨
     q = (p.1, p.2 + 1) ∨ p = (q.1, q.2 + 1))

/-- Two cells are adjacent through a removed wall.  The source clears both
facing flags of a removed wall; the flag on the left/upper cell is the
canonical representative. -/
def carvedAdj (g : Grid) (p q : Pos) : Prop :=
  (q.1 = p.1 + 1 ∧ q.2 = p.2 ∧ (g p).walls.right = false) ∨
  (p.1 = q.1 + 1 ∧ p.2 = q.2 ∧ (g q).walls.right = false) ∨
  (q.1 = p.1 ∧ q.2 = p.2 + 1 ∧ (g p).walls.bottom = false) ∨
  (p.1 = q.1 ∧ p.2 = q.2 + 1 ∧ (g q).walls.bottom = false)

/-- The graph of removed walls on the grid. -/
def carvedGraph (g : Grid) : SimpleGraph Pos where
  Adj := fun p q => carvedAdj g p q
  symm := by
    intro p q h
    rcases h with ⟨h1, h2, h3⟩ | ⟨h1, h2, h3⟩ | ⟨h1, h2, h3⟩ | ⟨h1, h2, h3⟩
    · exact Or.inr (Or.inl ⟨h1, h2, h3⟩)
    · exact Or.inl ⟨h1, h2, h3⟩
    · exact Or.inr (Or.inr (Or.inr ⟨h1, h2, h3⟩))
    · exact Or.inr (Or.inr (Or.inl ⟨h1, h2, h3⟩))
  loopless := by
    intro p h
    rcases h with ⟨h1, _, _⟩ | ⟨h1, _, _⟩ | ⟨_, h2, _⟩ | ⟨_, h2, _⟩ <;> omega

/-- Number of unvisited in-bounds cells (the loop's termination measure,
together with the stack length). -/
def unvisitedCount (cols rows : ℕ) (g : Grid) : ℕ :=
  (((Finset.range cols) ×ˢ (Finset.range rows)).filter
    (fun p => (g p).visited = false)).card

/-- The inductive invariant of the DFS carve loop. -/
structure CarveInv (cols rows : ℕ) (g : Grid) (stack : List Pos) : Prop where
  stack_bounds : ∀ p ∈ stack, InBounds cols rows p
  stack_visited : ∀ p ∈ stack, (g p).visited = true
  visited_bounds : ∀ p, (g p).visited = true → InBounds cols rows p
  root_visited : (g (0, 0)).visited = true
  reach : ∀ p, (g p).visited = true → (carvedGraph g).Reachable (0, 0) p
  edge_visited : ∀ p q, carvedAdj g p q →
    (g p).visited = true ∧ (g q).visited = true
  acyclic : (carvedGraph g).IsAcyclic
  closed : ∀ p, (g p).visited = true →
    p ∈ stack ∨ ∀ q, gridAdj cols rows p q → (g q).visited = true

end MazeGenerator

/-! ### Vector algebra lemmas -/

lemma dot_self_eq (v : Vec2) : Vec2.dot v v = v.x ^ 2 + v.y ^ 2 := by
  simp only [Vec2.dot]; ring

lemma mag_of_unit (v : Vec2) (h : Vec2.dot v v = 1) : Vec2.mag v = 1 := by
  have hx : v.x ^ 2 + v.y ^ 2 = 1 := by rw [← dot_self_eq]; exact h
  rw [Vec2.mag, hx, Real.sqrt_one]

lemma normalize_of_unit (v : Vec2) (h : Vec2.dot v v = 1) :
    Vec2.normalize v = v := by
  rw [Vec2.normalize, if_neg]
  · rw [mag_of_unit v h]
    ext <;> simp
  · rw [mag_of_unit v h]; norm_num

/-- The un-normalized mirror reflection of a unit direction about a unit
normal is itself a unit vector. -/
lemma reflect_unit (d n' : Vec2) (hd : Vec2.dot d d = 1)
    (hn : Vec2.dot n' n' = 1) :
    Vec2.dot (Vec2.sub d (Vec2.mult n' (2 * Vec2.dot d n')))
      (Vec2.sub d (Vec2.mult n' (2 * Vec2.dot d n'))) = 1 := by
  simp only [Vec2.dot, Vec2.sub, Vec2.mult] at *
  linear_combination hd + (2 * (d.x * n'.x + d.y * n'.y)) ^ 2 * hn

/-- **C2.** On a mirror hit with unit incoming direction `d` and unit stored
normal `n0`, the tracer orients the normal against the ray (flipping it when
`dot d n0 > 0`), and the outgoing direction—the normalization of
`d - 2*dot(d,n)*n`—equals the un-normalized reflection (it is already unit
length), is a unit vector, and satisfies the reflection law
`dot(d, n0) = -dot(d', n0)`. -/
theorem mirror_reflection_law (d n0 : Vec2) (hd : Vec2.dot d d = 1)
    (hn : Vec2.dot n0 n0 = 1) :
    mirrorStep d n0 =
      Vec2.sub d (Vec2.mult (if 0 < Vec2.dot d n0 then Vec2.mult n0 (-1) else n0)
        (2 * Vec2.dot d (if 0 < Vec2.dot d n0 then Vec2.mult n0 (-1) else n0))) ∧
    Vec2.dot (mirrorStep d n0) (mirrorStep d n0) = 1 ∧
    Vec2.dot d n0 = -Vec2.dot (mirrorStep d n0) n0 := by
  have hn' : Vec2.dot (if 0 < Vec2.dot d n0 then Vec2.mult n0 (-1) else n0)
      (if 0 < Vec2.dot d n0 then Vec2.mult n0 (-1) else n0) = 1 := by
    split
    · simp only [Vec2.dot, Vec2.mult] at *; linear_combination hn
    · exact hn
  have hunit := reflect_unit d _ hd hn'
  have heq : mirrorStep d n0 =
      Vec2.sub d (Vec2.mult (if 0 < Vec2.dot d n0 then Vec2.mult n0 (-1) else n0)
        (2 * Vec2.dot d (if 0 < Vec2.dot d n0 then Vec2.mult n0 (-1) else n0))) := by
    rw [mirrorStep]
    exact normalize_of_unit _ hunit
  refine ⟨heq, by rw [heq]; exact hunit, ?_⟩
  rw [heq]
  split
  · simp only [Vec2.dot, Vec2.sub, Vec2.mult] at *
    linear_combination (-2 * (d.x * n0.x + d.y * n0.y)) * hn
  · simp only [Vec2.dot, Vec2.sub, Vec2.mult] at *
    linear_combination (-2 * (d.x * n0.x + d.y * n0.y)) * hn

/-- Defensive witness for `mirror_reflection_law` at a concrete input. -/
theorem mirror_reflection_law_witness :
    Vec2.dot ⟨1, 0⟩ ⟨1, 0⟩ = 1 ∧ Vec2.dot ⟨1, 0⟩ ⟨1, 0⟩ = 1 ∧
    (mirrorStep ⟨1, 0⟩ ⟨1, 0⟩ =
      Vec2.sub ⟨1, 0⟩
        (Vec2.mult
          (if 0 < Vec2.dot (⟨1, 0⟩ : Vec2) ⟨1, 0⟩ then Vec2.mult ⟨1, 0⟩ (-1) else ⟨1, 0⟩)
          (2 * Vec2.dot ⟨1, 0⟩
            (if 0 < Vec2.dot (⟨1, 0⟩ : Vec2) ⟨1, 0⟩ then Vec2.mult ⟨1, 0⟩ (-1) else ⟨1, 0⟩))) ∧
    Vec2.dot (mirrorStep ⟨1, 0⟩ ⟨1, 0⟩) (mirrorStep ⟨1, 0⟩ ⟨1, 0⟩) = 1 ∧
    Vec2.dot (⟨1, 0⟩ : Vec2) ⟨1, 0⟩ = -Vec2.dot (mirrorStep ⟨1, 0⟩ ⟨1, 0⟩) ⟨1, 0⟩) :=
  ⟨by norm_num [Vec2.dot], by norm_num [Vec2.dot],
    mirror_reflection_law ⟨1, 0⟩ ⟨1, 0⟩ (by norm_num [Vec2.dot])
      (by norm_num [Vec2.dot])⟩

/-- **C1.** On a glass hit with unit incoming direction and unit stored
normal, with the normal oriented against the ray and the indices swapped
when exiting (`n = n_from/n_to`): when `sin²Transmitted > 1` the tracer
applies the same reflection formula as the mirror branch (total internal
reflection); otherwise the new direction equals
`n*d + (n*cosIncidence - cosTransmitted)*normal` renormalized to unit length
(the vector is already unit, so the code's unrenormalized result equals the
renormalized formula). -/
theorem glass_refraction (d n0 : Vec2) (hd : Vec2.dot d d = 1)
    (hn : Vec2.dot n0 n0 = 1) :
    (1 < glassSinT2 d n0 → glassStep d n0 = mirrorStep d n0) ∧
    (glassSinT2 d n0 ≤ 1 →
      glassStep d n0 =
        Vec2.normalize
          (Vec2.add (Vec2.mult d (glassN d n0))
            (Vec2.mult (glassNormal d n0)
              (glassN d n0 * glassCosI d n0 - Real.sqrt (1 - glassSinT2 d n0))))) := by
  constructor
  · intro htir
    rw [glassStep, mirrorStep]
    have hcond : ((if Vec2.dot d n0 < 0 then airIndex else refractiveIndex) /
          (if Vec2.dot d n0 < 0 then refractiveIndex else airIndex)) *
        ((if Vec2.dot d n0 < 0 then airIndex else refractiveIndex) /
          (if Vec2.dot d n0 < 0 then refractiveIndex else airIndex)) *
        (1 - -Vec2.dot (if Vec2.dot d n0 < 0 then n0 else Vec2.mult n0 (-1)) d *
          -Vec2.dot (if Vec2.dot d n0 < 0 then n0 else Vec2.mult n0 (-1)) d) =
        glassSinT2 d n0 := by
      rw [glassSinT2, glassN, glassCosI, glassNormal]
      split <;> ring
    simp only [hcond, if_pos htir]
    by_cases hent : Vec2.dot d n0 < 0
    · have hnpos : ¬ 0 < Vec2.dot d n0 := by linarith
      simp only [if_pos hent, if_neg hnpos]
    · simp only [if_neg hent]
      split
      · rfl
      · congr 1
        ext <;> simp [Vec2.sub, Vec2.mult, Vec2.dot] <;> ring
  · intro hle
    have hnormal : Vec2.dot (glassNormal d n0) (glassNormal d n0) = 1 := by
      rw [glassNormal]
      split
      · exact hn
      · simp only [Vec2.dot, Vec2.mult] at *; linear_combination hn
    have hs : Real.sqrt (1 - glassSinT2 d n0) ^ 2 = 1 - glassSinT2 d n0 :=
      Real.sq_sqrt (by linarith)
    have hunit : Vec2.dot
        (Vec2.add (Vec2.mult d (glassN d n0))
          (Vec2.mult (glassNormal d n0)
            (glassN d n0 * glassCosI d n0 - Real.sqrt (1 - glassSinT2 d n0))))
        (Vec2.add (Vec2.mult d (glassN d n0))
          (Vec2.mult (glassNormal d n0)
            (glassN d n0 * glassCosI d n0 - Real.sqrt (1 - glassSinT2 d n0)))) = 1 := by
      have hsinT2 : glassSinT2 d n0 =
          glassN d n0 * glassN d n0 * (1 - glassCosI d n0 * glassCosI d n0) := rfl
      have hcos : glassCosI d n0 = -Vec2.dot (glassNormal d n0) d := rfl
      set N := glassNormal d n0 with hN
      set nr := glassN d n0 with hnr
      set s := Real.sqrt (1 - glassSinT2 d n0) with hsdef
      rw [hsinT2, hcos] at hs
      rw [hcos]
      simp only [Vec2.dot, Vec2.add, Vec2.mult] at hd hnormal hs ⊢
      linear_combination (nr ^ 2) * hd +
        (nr * (N.x * d.x + N.y * d.y) + s) ^ 2 * hnormal + hs
    rw [normalize_of_unit _ hunit, glassStep]
    have hcond : ((if Vec2.dot d n0 < 0 then airIndex else refractiveIndex) /
          (if Vec2.dot d n0 < 0 then refractiveIndex else airIndex)) *
        ((if Vec2.dot d n0 < 0 then airIndex else refractiveIndex) /
          (if Vec2.dot d n0 < 0 then refractiveIndex else airIndex)) *
        (1 - -Vec2.dot (if Vec2.dot d n0 < 0 then n0 else Vec2.mult n0 (-1)) d *
          -Vec2.dot (if Vec2.dot d n0 < 0 then n0 else Vec2.mult n0 (-1)) d) =
        glassSinT2 d n0 := by
      rw [glassSinT2, glassN, glassCosI, glassNormal]
      split <;> ring
    have hnle : ¬ 1 < glassSinT2 d n0 := by linarith
    simp only [hcond, if_neg hnle]
    rw [glassN, glassCosI, glassNormal]
    split <;> rfl

/-- `segmentCircleIntersect` is exactly the comparison of the clamped
segment-to-center distance against the radius. -/
lemma segCI_eq_distLt (p1 p2 : Vec2) (circle : Target) :
    (segmentCircleIntersect p1 p2 circle = true) ↔
      distToSegment circle p1 p2 < circle.r := by
  rw [segmentCircleIntersect, distToSegment]
  by_cases hc : Vec2.dist p1 p2 ^ 2 = 0
  · simp [hc]
  · simp [hc]

lemma dist_eval (a b : Vec2) (r : ℝ) (hr : 0 ≤ r)
    (h : (a.x - b.x) ^ 2 + (a.y - b.y) ^ 2 = r ^ 2) : Vec2.dist a b = r := by
  rw [Vec2.dist, h, Real.sqrt_sq hr]

lemma scenarioWall_normal : scenarioWall.normal = ⟨-1, 0⟩ := by
  show calculateNormal ⟨50, 0⟩ ⟨50, 100⟩ = _
  rw [calculateNormal, Vec2.normalize, Vec2.mag]
  rw [show ((-(100 - 0 : ℝ)) ^ 2 + (50 - 50 : ℝ) ^ 2) = 100 ^ 2 by norm_num,
    Real.sqrt_sq (by norm_num : (0:ℝ) ≤ 100)]
  rw [if_neg (by norm_num)]
  ext <;> norm_num

lemma getLineIntersection_scenario1 :
    getLineIntersection ⟨0, 50⟩ ⟨1, 0⟩ scenarioWall.a scenarioWall.b =
      some (50, ⟨50, 50⟩) := by
  show getLineIntersection ⟨0, 50⟩ ⟨1, 0⟩ ⟨50, 0⟩ ⟨50, 100⟩ = _
  rw [getLineIntersection]
  rw [if_neg (by norm_num [Vec2.dot])]
  rw [if_pos (by norm_num [Vec2.dot])]
  norm_num [Vec2.dot]

lemma closestHit_scenario1 :
    closestHit [scenarioWall] ⟨0, 50⟩ ⟨1, 0⟩ = some (50, ⟨50, 50⟩, scenarioWall) := by
  rw [closestHit, List.foldl_cons, List.foldl_nil, getLineIntersection_scenario1]
  norm_num [epsilon]

/-- Defensive witness for `glass_refraction` at a concrete input. -/
theorem glass_refraction_witness :
    Vec2.dot ⟨1, 0⟩ ⟨1, 0⟩ = 1 ∧ Vec2.dot ⟨-1, 0⟩ ⟨-1, 0⟩ = 1 ∧
    ((1 < glassSinT2 ⟨1, 0⟩ ⟨-1, 0⟩ →
        glassStep ⟨1, 0⟩ ⟨-1, 0⟩ = mirrorStep ⟨1, 0⟩ ⟨-1, 0⟩) ∧
      (glassSinT2 ⟨1, 0⟩ ⟨-1, 0⟩ ≤ 1 →
        glassStep ⟨1, 0⟩ ⟨-1, 0⟩ =
          Vec2.normalize
            (Vec2.add (Vec2.mult ⟨1, 0⟩ (glassN ⟨1, 0⟩ ⟨-1, 0⟩))
              (Vec2.mult (glassNormal ⟨1, 0⟩ ⟨-1, 0⟩)
                (glassN ⟨1, 0⟩ ⟨-1, 0⟩ * glassCosI ⟨1, 0⟩ ⟨-1, 0⟩ -
                  Real.sqrt (1 - glassSinT2 ⟨1, 0⟩ ⟨-1, 0⟩)))))) :=
  ⟨by norm_num [Vec2.dot], by norm_num [Vec2.dot],
    glass_refraction ⟨1, 0⟩ ⟨-1, 0⟩ (by norm_num [Vec2.dot])
      (by norm_num [Vec2.dot])⟩

/-- Evaluation rule for `distToSegment` on a non-degenerate segment. -/
lemma distToSegment_eval (circle : Target) (p1 p2 : Vec2) (L tv tc r : ℝ)
    (hL : Vec2.dist p1 p2 = L) (hL0 : L ^ 2 ≠ 0)
    (htv : ((circle.center.x - p1.x) * (p2.x - p1.x) +
            (circle.center.y - p1.y) * (p2.y - p1.y)) / L ^ 2 = tv)
    (htc : max 0 (min 1 tv) = tc)
    (hr : Vec2.dist circle.center
      ⟨p1.x + tc * (p2.x - p1.x), p1.y + tc * (p2.y - p1.y)⟩ = r) :
    distToSegment circle p1 p2 = r := by
  rw [distToSegment, hL, if_neg hL0]
  dsimp only
  rw [htv, htc]
  exact hr

/-- **C7.** With `maxBounces ≤ 0` the tracer terminates at once with a
single-point path (just the origin) and `success = false`; with an empty
wall list and positive `maxBounces` it terminates with the origin followed
by the single far escape point 2000 units along the (normalized) direction,
again with `success = false`. -/
theorem degenerate_inputs (walls : List Wall) (tgt : Target) (maxBounces : ℤ)
    (start dir : Vec2) :
    (maxBounces ≤ 0 → traceRay walls tgt maxBounces start dir = ⟨[start], false⟩) ∧
    (0 < maxBounces →
      traceRay [] tgt maxBounces start dir =
        ⟨[start, ⟨start.x + (Vec2.normalize dir).x * 2000,
                  start.y + (Vec2.normalize dir).y * 2000⟩], false⟩) := by
  constructor
  · intro h
    have h0 : maxBounces.toNat = 0 := by omega
    rw [traceRay, h0]
    rfl
  · intro h
    obtain ⟨k, hk⟩ : ∃ k, maxBounces.toNat = k + 1 := ⟨maxBounces.toNat - 1, by omega⟩
    rw [traceRay, hk]
    simp [traceLoop, closestHit]

/-- Witness for `degenerate_inputs` at concrete inputs (bounce limits 0
and 1). -/
theorem degenerate_inputs_witness :
    traceRay [] ⟨⟨0, 0⟩, 15⟩ 0 ⟨3, 4⟩ ⟨1, 0⟩ = ⟨[⟨3, 4⟩], false⟩ ∧
    traceRay [] ⟨⟨0, 0⟩, 15⟩ 1 ⟨3, 4⟩ ⟨1, 0⟩ =
      ⟨[⟨3, 4⟩, ⟨(⟨3, 4⟩ : Vec2).x + (Vec2.normalize ⟨1, 0⟩).x * 2000,
                (⟨3, 4⟩ : Vec2).y + (Vec2.normalize ⟨1, 0⟩).y * 2000⟩], false⟩ :=
  ⟨(degenerate_inputs [] ⟨⟨0, 0⟩, 15⟩ 0 ⟨3, 4⟩ ⟨1, 0⟩).1 (by norm_num),
   (degenerate_inputs [] ⟨⟨0, 0⟩, 15⟩ 1 ⟨3, 4⟩ ⟨1, 0⟩).2 (by norm_num)⟩

/-- **C10.** When a bounce step finds no wall intersection, the loop appends
the far escape point (2000 units along the current direction) and stops
with the success flag unchanged: the right-hand side mentions the target
nowhere, so the final escape segment is never tested against it. -/
theorem escape_segment_untested (walls : List Wall) (tgt : Target) (fuel : ℕ)
    (pos dir : Vec2) (pts : List Vec2) (ht : Bool)
    (hnone : closestHit walls pos dir = none) :
    traceLoop walls tgt (fuel + 1) pos dir pts ht =
      (pts ++ [⟨pos.x + dir.x * 2000, pos.y + dir.y * 2000⟩], ht) := by
  simp [traceLoop, hnone]

/-- Witness for `escape_segment_untested`: with no walls, the escape segment
from (0,50) along (1,0) passes straight through the target at (100,50), yet
the trace ends with `success = false`. -/
theorem escape_segment_untested_witness :
    closestHit [] ⟨0, 50⟩ ⟨1, 0⟩ = none ∧
    segmentCircleIntersect ⟨0, 50⟩ ⟨0 + 1 * 2000, 50 + 0 * 2000⟩
      ⟨⟨100, 50⟩, 15⟩ = true ∧
    traceLoop [] ⟨⟨100, 50⟩, 15⟩ 1 ⟨0, 50⟩ ⟨1, 0⟩ [⟨0, 50⟩] false =
      ([⟨0, 50⟩, ⟨0 + 1 * 2000, 50 + 0 * 2000⟩], false) := by
  refine ⟨rfl, ?_, ?_⟩
  · rw [segCI_eq_distLt,
      distToSegment_eval ⟨⟨100, 50⟩, 15⟩ ⟨0, 50⟩ ⟨0 + 1 * 2000, 50 + 0 * 2000⟩
        2000 (1 / 20) (1 / 20) 0
        (dist_eval _ _ 2000 (by norm_num) (by norm_num)) (by norm_num)
        (by norm_num) (by norm_num)
        (dist_eval _ _ 0 (by norm_num) (by norm_num))]
    norm_num
  · exact escape_segment_untested [] ⟨⟨100, 50⟩, 15⟩ 0 ⟨0, 50⟩ ⟨1, 0⟩
      [⟨0, 50⟩] false rfl

/-- **C6.** On a bounce step that finds a wall hit, the target test uses the
clamped closest-point-on-segment distance from the current position to the
hit point, and it runs before the wall-type dispatch: whatever the hit
wall's type (reflect, refract or absorb), a clamped distance of `r - ε`
makes the step end with `success = true`, while one of `r + ε` makes the
segment test negative. -/
theorem target_check_precedes_dispatch (walls : List Wall) (tgt : Target)
    (fuel : ℕ) (pos dir : Vec2) (pts : List Vec2) (t : ℝ) (pt : Vec2)
    (w : Wall) (ε : ℝ)
    (hhit : closestHit walls pos dir = some (t, pt, w)) (hε : 0 < ε) :
    ((segmentCircleIntersect pos pt tgt = true) ↔
      distToSegment tgt pos pt < tgt.r) ∧
    (distToSegment tgt pos pt = tgt.r - ε →
      (traceLoop walls tgt (fuel + 1) pos dir pts false).2 = true) ∧
    (distToSegment tgt pos pt = tgt.r + ε →
      segmentCircleIntersect pos pt tgt = false) := by
  refine ⟨segCI_eq_distLt pos pt tgt, ?_, ?_⟩
  · intro hdist
    have hseg : segmentCircleIntersect pos pt tgt = true :=
      (segCI_eq_distLt pos pt tgt).2 (by rw [hdist]; linarith)
    cases hwt : w.type <;> simp [traceLoop, hhit, hwt, hseg]
  · intro hdist
    have hnot : ¬ distToSegment tgt pos pt < tgt.r := by rw [hdist]; linarith
    cases hb : segmentCircleIntersect pos pt tgt
    · rfl
    · exact absurd ((segCI_eq_distLt pos pt tgt).1 hb) hnot

/-- Witness for `target_check_precedes_dispatch` at the concrete mirror-wall
scenario: the segment (0,50)–(50,50) approaches the center (25,40) at
distance 10; with radius 11 (`= 10 + 1`) the step succeeds, with radius 9
(`= 10 - 1`) the segment test is negative. -/
theorem target_check_precedes_dispatch_witness :
    closestHit [scenarioWall] ⟨0, 50⟩ ⟨1, 0⟩ = some (50, ⟨50, 50⟩, scenarioWall) ∧
    (0 : ℝ) < 1 ∧
    (traceLoop [scenarioWall] ⟨⟨25, 40⟩, 11⟩ 1 ⟨0, 50⟩ ⟨1, 0⟩ [] false).2 = true ∧
    segmentCircleIntersect ⟨0, 50⟩ ⟨50, 50⟩ ⟨⟨25, 40⟩, 9⟩ = false := by
  have h10 : ∀ r : ℝ, distToSegment ⟨⟨25, 40⟩, r⟩ ⟨0, 50⟩ ⟨50, 50⟩ = 10 := by
    intro r
    exact distToSegment_eval ⟨⟨25, 40⟩, r⟩ ⟨0, 50⟩ ⟨50, 50⟩ 50 (1 / 2) (1 / 2) 10
      (dist_eval _ _ 50 (by norm_num) (by norm_num)) (by norm_num)
      (by norm_num) (by norm_num)
      (dist_eval _ _ 10 (by norm_num) (by norm_num))
  refine ⟨closestHit_scenario1, by norm_num, ?_, ?_⟩
  · exact (target_check_precedes_dispatch [scenarioWall] ⟨⟨25, 40⟩, 11⟩ 0
      ⟨0, 50⟩ ⟨1, 0⟩ [] 50 ⟨50, 50⟩ scenarioWall 1 closestHit_scenario1
      (by norm_num)).2.1 (by rw [h10]; norm_num)
  · exact (target_check_precedes_dispatch [scenarioWall] ⟨⟨25, 40⟩, 9⟩ 0
      ⟨0, 50⟩ ⟨1, 0⟩ [] 50 ⟨50, 50⟩ scenarioWall 1 closestHit_scenario1
      (by norm_num)).2.2 (by rw [h10]; norm_num)

/-- Each loop iteration appends at most one path point. -/
lemma traceLoop_length (walls : List Wall) (tgt : Target) :
    ∀ (fuel : ℕ) (pos dir : Vec2) (pts : List Vec2) (ht : Bool),
      (traceLoop walls tgt fuel pos dir pts ht).1.length ≤ pts.length + fuel := by
  intro fuel
  induction fuel with
  | zero => intro pos dir pts ht; simp [traceLoop]
  | succ n ih =>
    intro pos dir pts ht
    rcases h : closestHit walls pos dir with _ | ⟨t, pt, w⟩
    · simp [traceLoop, h]
    · cases hwt : w.type
      · simp only [traceLoop, h, hwt]
        split
        · simp only [List.length_append, List.length_cons, List.length_nil]
          omega
        · exact le_trans (ih _ _ _ _)
            (by simp only [List.length_append, List.length_cons,
              List.length_nil]; omega)
      · simp only [traceLoop, h, hwt]
        split
        · simp only [List.length_append, List.length_cons, List.length_nil]
          omega
        · exact le_trans (ih _ _ _ _)
            (by simp only [List.length_append, List.length_cons,
              List.length_nil]; omega)
      · simp only [traceLoop, h, hwt]
        simp only [List.length_append, List.length_cons, List.length_nil]
        omega

/-- The loop only ever appends to the accumulated path. -/
lemma traceLoop_path_prefix (walls : List Wall) (tgt : Target) :
    ∀ (fuel : ℕ) (pos dir : Vec2) (pts : List Vec2) (ht : Bool),
      ∃ suf, (traceLoop walls tgt fuel pos dir pts ht).1 = pts ++ suf := by
  intro fuel
  induction fuel with
  | zero => intro pos dir pts ht; exact ⟨[], by simp [traceLoop]⟩
  | succ n ih =>
    intro pos dir pts ht
    rcases h : closestHit walls pos dir with _ | ⟨t, pt, w⟩
    · exact ⟨[⟨pos.x + dir.x * 2000, pos.y + dir.y * 2000⟩], by simp [traceLoop, h]⟩
    · cases hwt : w.type
      · simp only [traceLoop, h, hwt]
        split
        · exact ⟨[pt], rfl⟩
        · obtain ⟨suf, hsuf⟩ := ih pt (mirrorStep dir w.normal) (pts ++ [pt])
            (ht || segmentCircleIntersect pos pt tgt)
          exact ⟨pt :: suf, by rw [hsuf, List.append_assoc]; rfl⟩
      · simp only [traceLoop, h, hwt]
        split
        · exact ⟨[pt], rfl⟩
        · obtain ⟨suf, hsuf⟩ := ih pt (glassStep dir w.normal) (pts ++ [pt])
            (ht || segmentCircleIntersect pos pt tgt)
          exact ⟨pt :: suf, by rw [hsuf, List.append_assoc]; rfl⟩
      · exact ⟨[pt], by simp [traceLoop, h, hwt]⟩

/-- If a list ends in `a` and the segment `a`–`b` passes the target, any
extension of the list by `b` registers in `pathHits`. -/
lemma pathHits_append (tgt : Target) :
    ∀ (l : List Vec2) (a b : Vec2) (suf : List Vec2),
      l.getLast? = some a → segmentCircleIntersect a b tgt = true →
      pathHits tgt (l ++ b :: suf) = true := by
  intro l
  induction l with
  | nil => intro a b suf hl _; simp at hl
  | cons x xs ih =>
    intro a b suf hl hseg
    cases xs with
    | nil =>
      simp only [List.getLast?_singleton, Option.some.injEq] at hl
      subst hl
      simp [pathHits, hseg]
    | cons y ys =>
      have hl' : (y :: ys).getLast? = some a := by
        rwa [List.getLast?_cons_cons] at hl
      have hrec := ih a b suf hl' hseg
      rw [List.cons_append] at hrec
      simp only [List.cons_append, pathHits]
      simp [hrec]

/-- The success flag can only become true through a positive segment test
on a pair of adjacent path points. -/
lemma traceLoop_success_hits (walls : List Wall) (tgt : Target) :
    ∀ (fuel : ℕ) (pos dir : Vec2) (pts : List Vec2) (ht : Bool),
      pts.getLast? = some pos →
      (traceLoop walls tgt fuel pos dir pts ht).2 = true →
      ht = true ∨ pathHits tgt (traceLoop walls tgt fuel pos dir pts ht).1 = true := by
  intro fuel
  induction fuel with
  | zero =>
    intro pos dir pts ht _ hs
    simp only [traceLoop] at hs
    exact Or.inl hs
  | succ n ih =>
    intro pos dir pts ht hl hs
    rcases h : closestHit walls pos dir with _ | ⟨t, pt, w⟩
    · simp only [traceLoop, h] at hs
      exact Or.inl hs
    · have hstep : ∀ rest : List Vec2, (ht || segmentCircleIntersect pos pt tgt) = true →
          ht = true ∨ pathHits tgt (pts ++ pt :: rest) = true := by
        intro rest hb
        rcases Bool.or_eq_true_iff.1 hb with hht | hseg
        · exact Or.inl hht
        · exact Or.inr (pathHits_append tgt pts pos pt rest hl hseg)
      cases hwt : w.type
      · simp only [traceLoop, h, hwt] at hs ⊢
        by_cases hb : (ht || segmentCircleIntersect pos pt tgt) = true
        · rw [if_pos hb] at hs ⊢
          simpa using hstep [] hb
        · rw [if_neg hb] at hs ⊢
          have hbf : (ht || segmentCircleIntersect pos pt tgt) = false :=
            Bool.not_eq_true _ ▸ eq_false_of_ne_true hb
          rcases ih pt (mirrorStep dir w.normal) (pts ++ [pt]) _
              (List.getLast?_concat pts) hs with hfalse | hhits
          · rw [hbf] at hfalse; exact absurd hfalse (by simp)
          · exact Or.inr hhits
      · simp only [traceLoop, h, hwt] at hs ⊢
        by_cases hb : (ht || segmentCircleIntersect pos pt tgt) = true
        · rw [if_pos hb] at hs ⊢
          simpa using hstep [] hb
        · rw [if_neg hb] at hs ⊢
          have hbf : (ht || segmentCircleIntersect pos pt tgt) = false :=
            Bool.not_eq_true _ ▸ eq_false_of_ne_true hb
          rcases ih pt (glassStep dir w.normal) (pts ++ [pt]) _
              (List.getLast?_concat pts) hs with hfalse | hhits
          · rw [hbf] at hfalse; exact absurd hfalse (by simp)
          · exact Or.inr hhits
      · simp only [traceLoop, h, hwt] at hs ⊢
        simpa using hstep [] hs

/-- **C3.** For every wall list, target, origin, direction and bounce limit,
the trace terminates (it is a total function of its fuel), its path holds
the origin plus at most one point per loop iteration (at most
`maxBounces.toNat` of them), and a run that never registered a positive
segment-vs-target test—in particular one that exhausts the bounce limit
without a hit—returns the accumulated path with `success = false` as an
ordinary result. -/
theorem traceRay_terminates_bounded (walls : List Wall) (tgt : Target)
    (maxBounces : ℤ) (start dir : Vec2) :
    (traceRay walls tgt maxBounces start dir).path.length ≤ maxBounces.toNat + 1 ∧
    (traceRay walls tgt maxBounces start dir).path.head? = some start ∧
    ((traceRay walls tgt maxBounces start dir).success = true →
      pathHits tgt (traceRay walls tgt maxBounces start dir).path = true) := by
  refine ⟨?_, ?_, ?_⟩
  · have h := traceLoop_length walls tgt maxBounces.toNat start
      (Vec2.normalize dir) [start] false
    simp only [traceRay, List.length_cons, List.length_nil] at h ⊢
    omega
  · obtain ⟨suf, hsuf⟩ := traceLoop_path_prefix walls tgt maxBounces.toNat start
      (Vec2.normalize dir) [start] false
    simp only [traceRay]
    rw [hsuf]
    rfl
  · intro hs
    simp only [traceRay] at hs ⊢
    rcases traceLoop_success_hits walls tgt maxBounces.toNat start
        (Vec2.normalize dir) [start] false rfl hs with hfalse | hhits
    · exact absurd hfalse (by simp)
    · exact hhits

/-- Defensive witness for `traceRay_terminates_bounded` at a concrete
input. -/
theorem traceRay_terminates_bounded_witness :
    (traceRay [] ⟨⟨0, 0⟩, 10⟩ 0 ⟨1, 2⟩ ⟨1, 0⟩).path.length ≤ (0 : ℤ).toNat + 1 ∧
    (traceRay [] ⟨⟨0, 0⟩, 10⟩ 0 ⟨1, 2⟩ ⟨1, 0⟩).path.head? = some ⟨1, 2⟩ ∧
    ((traceRay [] ⟨⟨0, 0⟩, 10⟩ 0 ⟨1, 2⟩ ⟨1, 0⟩).success = true →
      pathHits ⟨⟨0, 0⟩, 10⟩ (traceRay [] ⟨⟨0, 0⟩, 10⟩ 0 ⟨1, 2⟩ ⟨1, 0⟩).path = true) :=
  traceRay_terminates_bounded [] ⟨⟨0, 0⟩, 10⟩ 0 ⟨1, 2⟩ ⟨1, 0⟩

lemma normalize_unit_x : Vec2.normalize ⟨1, 0⟩ = ⟨1, 0⟩ :=
  normalize_of_unit _ (by norm_num [Vec2.dot])

lemma scenarioWall_type : scenarioWall.type = WallType.mirror := rfl

lemma mirrorStep_scenario : mirrorStep ⟨1, 0⟩ scenarioWall.normal = ⟨-1, 0⟩ := by
  rw [scenarioWall_normal, mirrorStep]
  rw [if_neg (by norm_num [Vec2.dot])]
  rw [show Vec2.sub ⟨1, 0⟩ (Vec2.mult ⟨-1, 0⟩ (2 * Vec2.dot ⟨1, 0⟩ ⟨-1, 0⟩)) =
      (⟨-1, 0⟩ : Vec2) by ext <;> norm_num [Vec2.sub, Vec2.mult, Vec2.dot]]
  exact normalize_of_unit _ (by norm_num [Vec2.dot])

lemma getLineIntersection_scenario2 :
    getLineIntersection ⟨50, 50⟩ ⟨-1, 0⟩ scenarioWall.a scenarioWall.b =
      some (0, ⟨50, 50⟩) := by
  show getLineIntersection ⟨50, 50⟩ ⟨-1, 0⟩ ⟨50, 0⟩ ⟨50, 100⟩ = _
  rw [getLineIntersection]
  rw [if_neg (by norm_num [Vec2.dot])]
  rw [if_pos (by norm_num [Vec2.dot])]
  norm_num [Vec2.dot]

/-- On the return leg the ray re-meets the same wall at `t = 0`, which the
`t > epsilon` guard rejects: no wall is hit. -/
lemma closestHit_scenario2 :
    closestHit [scenarioWall] ⟨50, 50⟩ ⟨-1, 0⟩ = none := by
  rw [closestHit, List.foldl_cons, List.foldl_nil, getLineIntersection_scenario2]
  norm_num [epsilon]

lemma segCI_false_of_not_lt (p1 p2 : Vec2) (circle : Target)
    (h : ¬ distToSegment circle p1 p2 < circle.r) :
    segmentCircleIntersect p1 p2 circle = false := by
  cases hb : segmentCircleIntersect p1 p2 circle
  · rfl
  · exact absurd ((segCI_eq_distLt p1 p2 circle).1 hb) h

/-- The first scenario segment (0,50)–(50,50) stays 50 away from the target
center (100,50): no hit. -/
lemma segCI_scenario_false :
    segmentCircleIntersect ⟨0, 50⟩ ⟨50, 50⟩ ⟨⟨100, 50⟩, 15⟩ = false := by
  refine segCI_false_of_not_lt _ _ _ ?_
  rw [distToSegment_eval ⟨⟨100, 50⟩, 15⟩ ⟨0, 50⟩ ⟨50, 50⟩ 50 2 1 50
    (dist_eval _ _ 50 (by norm_num) (by norm_num)) (by norm_num)
    (by norm_num) (by norm_num)
    (dist_eval _ _ 50 (by norm_num) (by norm_num))]
  norm_num

/-- One-step rule: no wall hit, appends the far escape point. -/
lemma traceLoop_escape (walls : List Wall) (tgt : Target) (pos dir : Vec2)
    (hnone : closestHit walls pos dir = none) (fuel : ℕ) (pts : List Vec2)
    (ht : Bool) :
    traceLoop walls tgt (fuel + 1) pos dir pts ht =
      (pts ++ [⟨pos.x + dir.x * 2000, pos.y + dir.y * 2000⟩], ht) := by
  simp [traceLoop, hnone]

/-- One-step rule: mirror hit missing the target, loop continues with the
reflected direction. -/
lemma traceLoop_step_mirror (walls : List Wall) (tgt : Target)
    (pos dir : Vec2) (t : ℝ) (pt : Vec2) (w : Wall)
    (hhit : closestHit walls pos dir = some (t, pt, w))
    (hw : w.type = WallType.mirror)
    (hseg : segmentCircleIntersect pos pt tgt = false)
    (fuel : ℕ) (pts : List Vec2) :
    traceLoop walls tgt (fuel + 1) pos dir pts false =
      traceLoop walls tgt fuel pt (mirrorStep dir w.normal) (pts ++ [pt])
        false := by
  simp [traceLoop, hhit, hw, hseg]

/-- **C9.** In the concrete scenario—emitter (0,50), one vertical mirror
wall from (50,0) to (50,100), target (100,50) with radius 15, initial
direction (1,0), default bounce limit—the trace reflects exactly once at
(50,50), the path is [(0,50), (50,50), (-1950,50)] (the far point leftward
along the reflected direction), and `success = false`. -/
theorem scenario_single_mirror :
    traceRay [scenarioWall] ⟨⟨100, 50⟩, 15⟩ 20 ⟨0, 50⟩ ⟨1, 0⟩ =
      ⟨[⟨0, 50⟩, ⟨50, 50⟩, ⟨-1950, 50⟩], false⟩ := by
  have h : traceLoop [scenarioWall] ⟨⟨100, 50⟩, 15⟩ ((20 : ℤ)).toNat
      ⟨0, 50⟩ (Vec2.normalize ⟨1, 0⟩) [⟨0, 50⟩] false =
      ([⟨0, 50⟩, ⟨50, 50⟩, ⟨-1950, 50⟩], false) := by
    rw [show ((20 : ℤ)).toNat = 19 + 1 from rfl, normalize_unit_x]
    rw [traceLoop_step_mirror _ _ _ _ _ _ _ closestHit_scenario1
      scenarioWall_type segCI_scenario_false]
    rw [mirrorStep_scenario, show (19 : ℕ) = 18 + 1 from rfl]
    rw [traceLoop_escape _ _ _ _ closestHit_scenario2]
    norm_num
  simp only [traceRay, h]

/-- Projection: the instrumented loop computes exactly the pure loop's
result. -/
lemma traceLoopS_fst (walls : List Wall) (tgt : Target) (rng : ℕ → ℝ) :
    ∀ (fuel : ℕ) (pos dir : Vec2) (pts : List Vec2) (ht : Bool)
      (ps : List Particle) (k : ℕ),
      (traceLoopS walls tgt rng fuel pos dir pts ht ps k).1 =
        traceLoop walls tgt fuel pos dir pts ht := by
  intro fuel
  induction fuel with
  | zero => intro pos dir pts ht ps k; rfl
  | succ n ih =>
    intro pos dir pts ht ps k
    rcases h : closestHit walls pos dir with _ | ⟨t, pt, w⟩
    · simp only [traceLoopS, traceLoop, h]
    · cases hwt : w.type
      · simp only [traceLoopS, traceLoop, h, hwt]
        split
        · rfl
        · exact ih _ _ _ _ _ _
      · simp only [traceLoopS, traceLoop, h, hwt]
        split
        · rfl
        · exact ih _ _ _ _ _ _
      · simp only [traceLoopS, traceLoop, h, hwt]

/-- **C4 (amended).** A trace call leaves the wall list, the target and the
bounce limit unchanged, and its `TraceResult` is a pure function of
(origin, direction, walls, target, bounce limit)—identical inputs give
identical results whatever the rest of the engine state.  It does, however,
touch state outside its locals: mirror and glass bounces append hit-effect
particles to the engine's particle list (see
`trace_mutates_particles`). -/
theorem traceRay_engine_effects (s : EngineState) (start dir : Vec2) :
    (traceRayS s start dir).2.walls = s.walls ∧
    (traceRayS s start dir).2.target = s.target ∧
    (traceRayS s start dir).2.maxBounces = s.maxBounces ∧
    (traceRayS s start dir).1 =
      traceRay s.walls s.target s.maxBounces start dir := by
  refine ⟨rfl, rfl, rfl, ?_⟩
  simp only [traceRayS, traceRay]
  rw [traceLoopS_fst]

/-- Defensive witness for `traceRay_engine_effects` at a concrete state. -/
theorem traceRay_engine_effects_witness :
    (traceRayS ⟨[], ⟨⟨0, 0⟩, 1⟩, 0, [], fun _ => 0, 0⟩ ⟨0, 0⟩ ⟨1, 0⟩).2.walls = [] ∧
    (traceRayS ⟨[], ⟨⟨0, 0⟩, 1⟩, 0, [], fun _ => 0, 0⟩ ⟨0, 0⟩ ⟨1, 0⟩).2.target =
      ⟨⟨0, 0⟩, 1⟩ ∧
    (traceRayS ⟨[], ⟨⟨0, 0⟩, 1⟩, 0, [], fun _ => 0, 0⟩ ⟨0, 0⟩ ⟨1, 0⟩).2.maxBounces = 0 ∧
    (traceRayS ⟨[], ⟨⟨0, 0⟩, 1⟩, 0, [], fun _ => 0, 0⟩ ⟨0, 0⟩ ⟨1, 0⟩).1 =
      traceRay [] ⟨⟨0, 0⟩, 1⟩ 0 ⟨0, 0⟩ ⟨1, 0⟩ :=
  traceRay_engine_effects ⟨[], ⟨⟨0, 0⟩, 1⟩, 0, [], fun _ => 0, 0⟩ ⟨0, 0⟩ ⟨1, 0⟩

/-- **C4 counterexample.** A trace call does *not* leave all other engine
state unchanged: in the concrete mirror scenario (no particles before the
shot, any randomness), the mirror bounce appends three hit-effect particles
to the engine's particle list. -/
theorem trace_mutates_particles :
    (traceRayS ⟨[scenarioWall], ⟨⟨100, 50⟩, 15⟩, 20, [], fun _ => 0, 0⟩
        ⟨0, 50⟩ ⟨1, 0⟩).2.particles ≠
      (⟨[scenarioWall], ⟨⟨100, 50⟩, 15⟩, 20, [], fun _ => 0, 0⟩ :
        EngineState).particles := by
  have hesc : ∀ (fuel : ℕ) (pts : List Vec2) (ht : Bool) (ps : List Particle)
      (k : ℕ),
      traceLoopS [scenarioWall] ⟨⟨100, 50⟩, 15⟩ (fun _ => 0) (fuel + 1)
        ⟨50, 50⟩ ⟨-1, 0⟩ pts ht ps k =
      ((pts ++ [⟨50 + -1 * 2000, 50 + 0 * 2000⟩], ht), ps, k) := by
    intro fuel pts ht ps k
    simp [traceLoopS, closestHit_scenario2]
  have hstep : ∀ (fuel : ℕ) (pts : List Vec2) (ps : List Particle) (k : ℕ),
      traceLoopS [scenarioWall] ⟨⟨100, 50⟩, 15⟩ (fun _ => 0) (fuel + 1)
        ⟨0, 50⟩ ⟨1, 0⟩ pts false ps k =
      traceLoopS [scenarioWall] ⟨⟨100, 50⟩, 15⟩ (fun _ => 0) fuel
        ⟨50, 50⟩ (mirrorStep ⟨1, 0⟩ scenarioWall.normal) (pts ++ [⟨50, 50⟩])
        false
        (spawnParticles (fun _ => 0) ⟨50, 50⟩ "#00ccff" 2 ps k).1
        (spawnParticles (fun _ => 0) ⟨50, 50⟩ "#00ccff" 2 ps k).2 := by
    intro fuel pts ps k
    simp [traceLoopS, closestHit_scenario1, scenarioWall_type,
      segCI_scenario_false]
  have hlen : (traceRayS ⟨[scenarioWall], ⟨⟨100, 50⟩, 15⟩, 20, [], fun _ => 0, 0⟩
      ⟨0, 50⟩ ⟨1, 0⟩).2.particles.length = 3 := by
    simp only [traceRayS]
    rw [show ((20 : ℤ)).toNat = 19 + 1 from rfl, normalize_unit_x, hstep,
      mirrorStep_scenario, show (19 : ℕ) = 18 + 1 from rfl, hesc]
    simp [spawnParticles]
  intro hcontra
  rw [hcontra] at hlen
  simp at hlen

namespace MazeGenerator

lemma updateCell_apply (g : Grid) (p : Pos) (f : Cell → Cell) (q : Pos) :
    updateCell g p f q = if q = p then f (g q) else g q := rfl

lemma setVisited_visited (g : Grid) (p q : Pos) :
    ((setVisited g p) q).visited = if q = p then true else (g q).visited := by
  rw [setVisited, updateCell_apply]
  split <;> rfl

lemma setVisited_walls (g : Grid) (p q : Pos) :
    ((setVisited g p) q).walls = (g q).walls := by
  rw [setVisited, updateCell_apply]
  split <;> rfl

lemma removeWallBetween_visited (g : Grid) (cur nxt q : Pos) :
    ((removeWallBetween g cur nxt) q).visited = (g q).visited := by
  rw [removeWallBetween]
  split_ifs <;> (simp only [updateCell]; split_ifs <;> rfl)

lemma carvedAdj_congr {g g' : Grid} (hw : ∀ p, (g' p).walls = (g p).walls)
    (q r : Pos) : carvedAdj g' q r ↔ carvedAdj g q r := by
  simp only [carvedAdj, hw]

lemma carvedAdj_symm {g : Grid} {p q : Pos} (h : carvedAdj g p q) :
    carvedAdj g q p := (carvedGraph g).symm h

lemma mem_ite_single {α : Type} {c : Prop} [Decidable c] {a b : α}
    (h : a ∈ (if c then [b] else [])) : c ∧ a = b := by
  by_cases hc : c
  · rw [if_pos hc] at h
    simp at h
    exact ⟨hc, h⟩
  · rw [if_neg hc] at h
    simp at h

lemma mem_unvisitedNeighbors {cols rows : ℕ} {g : Grid} {p q : Pos}
    (hq : q ∈ unvisitedNeighbors cols rows g p) :
    (g q).visited = false ∧
    ((0 < p.2 ∧ q = (p.1, p.2 - 1)) ∨ (p.1 + 1 < cols ∧ q = (p.1 + 1, p.2)) ∨
     (p.2 + 1 < rows ∧ q = (p.1, p.2 + 1)) ∨ (0 < p.1 ∧ q = (p.1 - 1, p.2))) := by
  simp only [unvisitedNeighbors, List.mem_append] at hq
  rcases hq with ((h | h) | h) | h
  · obtain ⟨⟨hb, hv⟩, rfl⟩ := mem_ite_single h
    exact ⟨hv, Or.inl ⟨hb, rfl⟩⟩
  · obtain ⟨⟨hb, hv⟩, rfl⟩ := mem_ite_single h
    exact ⟨hv, Or.inr (Or.inl ⟨hb, rfl⟩)⟩
  · obtain ⟨⟨hb, hv⟩, rfl⟩ := mem_ite_single h
    exact ⟨hv, Or.inr (Or.inr (Or.inl ⟨hb, rfl⟩))⟩
  · obtain ⟨⟨hb, hv⟩, rfl⟩ := mem_ite_single h
    exact ⟨hv, Or.inr (Or.inr (Or.inr ⟨hb, rfl⟩))⟩

lemma ite_single_eq_nil {α : Type} {c : Prop} [Decidable c] {b : α}
    (h : (if c then [b] else []) = ([] : List α)) : ¬ c := by
  intro hc
  rw [if_pos hc] at h
  exact absurd h (by simp)

lemma unvisitedNeighbors_nil {cols rows : ℕ} {g : Grid} {p : Pos}
    (h : unvisitedNeighbors cols rows g p = []) :
    ∀ q, gridAdj cols rows p q → (g q).visited = true := by
  intro q hadj
  obtain ⟨px, py⟩ := p
  obtain ⟨qx, qy⟩ := q
  obtain ⟨hp, hq, hcase⟩ := hadj
  simp only [unvisitedNeighbors, List.append_eq_nil] at h
  obtain ⟨⟨⟨h1, h2⟩, h3⟩, h4⟩ := h
  have hc1 := ite_single_eq_nil h1
  have hc2 := ite_single_eq_nil h2
  have hc3 := ite_single_eq_nil h3
  have hc4 := ite_single_eq_nil h4
  simp only [Prod.mk.injEq] at hcase
  have hqx : qx < cols := hq.1
  have hqy : qy < rows := hq.2
  cases hv : (g (qx, qy)).visited
  · exfalso
    rcases hcase with ⟨hx, hy⟩ | ⟨hx, hy⟩ | ⟨hx, hy⟩ | ⟨hx, hy⟩
    · subst hx; subst hy
      exact hc2 ⟨hqx, hv⟩
    · subst hx; subst hy
      exact hc4 ⟨by omega, by simpa using hv⟩
    · subst hx; subst hy
      exact hc3 ⟨hqy, hv⟩
    · subst hx; subst hy
      exact hc1 ⟨by omega, by simpa using hv⟩
  · rfl

lemma getD_mem {α : Type} (l : List α) (i : ℕ) (d : α) (h : l ≠ []) :
    l.getD (i % l.length) d ∈ l := by
  have hlen : i % l.length < l.length := Nat.mod_lt _ (List.length_pos.2 h)
  rw [List.getD_eq_getElem?_getD, List.getElem?_eq_getElem hlen]
  exact List.getElem_mem hlen

lemma filter_card_succ {α : Type} [DecidableEq α] (s : Finset α)
    (P Q : α → Prop) [DecidablePred P] [DecidablePred Q] (a : α) (ha : a ∈ s)
    (hPa : P a) (hQa : ¬ Q a) (hcong : ∀ b ∈ s, b ≠ a → (P b ↔ Q b)) :
    (s.filter P).card = (s.filter Q).card + 1 := by
  have hins : s.filter P = insert a (s.filter Q) := by
    ext b
    simp only [Finset.mem_filter, Finset.mem_insert]
    constructor
    · rintro ⟨hb, hPb⟩
      by_cases hba : b = a
      · exact Or.inl hba
      · exact Or.inr ⟨hb, (hcong b hb hba).1 hPb⟩
    · rintro (rfl | ⟨hb, hQb⟩)
      · exact ⟨ha, hPa⟩
      · refine ⟨hb, ?_⟩
        by_cases hba : b = a
        · exact absurd (hba ▸ hQb) hQa
        · exact (hcong b hb hba).2 hQb
  rw [hins, Finset.card_insert_of_not_mem (by simp [hQa])]

lemma removeWall_flags_horizontal (g : Grid) (x y : ℕ) (cur nxt : Pos)
    (hcn : cur = ((x, y) : Pos) ∧ nxt = (x + 1, y) ∨
      cur = ((x + 1, y) : Pos) ∧ nxt = (x, y)) :
    (∀ a : Pos, ((removeWallBetween g cur nxt) a).walls.right =
      if a = ((x, y) : Pos) then false else (g a).walls.right) ∧
    (∀ a : Pos, ((removeWallBetween g cur nxt) a).walls.bottom =
      (g a).walls.bottom) := by
  have hne : ((x + 1, y) : Pos) ≠ (x, y) := by
    intro hcontra
    rw [Prod.mk.injEq] at hcontra
    omega
  rcases hcn with ⟨rfl, rfl⟩ | ⟨rfl, rfl⟩
  · rw [removeWallBetween,
      if_pos (show ((x, y) : Pos).1 < ((x + 1, y) : Pos).1 by omega)]
    constructor <;> intro a <;> simp only [updateCell] <;> split_ifs <;>
      simp_all
  · rw [removeWallBetween,
      if_neg (show ¬((x + 1, y) : Pos).1 < ((x, y) : Pos).1 by omega),
      if_pos (show ((x, y) : Pos).1 < ((x + 1, y) : Pos).1 by omega)]
    constructor <;> intro a <;> simp only [updateCell] <;> split_ifs <;>
      simp_all

lemma removeWall_flags_vertical (g : Grid) (x y : ℕ) (cur nxt : Pos)
    (hcn : cur = ((x, y) : Pos) ∧ nxt = (x, y + 1) ∨
      cur = ((x, y + 1) : Pos) ∧ nxt = (x, y)) :
    (∀ a : Pos, ((removeWallBetween g cur nxt) a).walls.bottom =
      if a = ((x, y) : Pos) then false else (g a).walls.bottom) ∧
    (∀ a : Pos, ((removeWallBetween g cur nxt) a).walls.right =
      (g a).walls.right) := by
  have hne : ((x, y + 1) : Pos) ≠ (x, y) := by
    intro hcontra
    rw [Prod.mk.injEq] at hcontra
    omega
  rcases hcn with ⟨rfl, rfl⟩ | ⟨rfl, rfl⟩
  · rw [removeWallBetween,
      if_neg (show ¬((x, y) : Pos).1 < ((x, y + 1) : Pos).1 by omega),
      if_neg (show ¬((x, y + 1) : Pos).1 < ((x, y) : Pos).1 by omega),
      if_pos (show ((x, y) : Pos).2 < ((x, y + 1) : Pos).2 by omega)]
    constructor <;> intro a <;> simp only [updateCell] <;> split_ifs <;>
      simp_all
  · rw [removeWallBetween,
      if_neg (show ¬((x, y + 1) : Pos).1 < ((x, y) : Pos).1 by omega),
      if_neg (show ¬((x, y) : Pos).1 < ((x, y + 1) : Pos).1 by omega),
      if_neg (show ¬((x, y + 1) : Pos).2 < ((x, y) : Pos).2 by omega)]
    constructor <;> intro a <;> simp only [updateCell] <;> split_ifs <;>
      simp_all

lemma removeWall_flag_mono (g : Grid) (cur nxt a : Pos) :
    ((g a).walls.right = false →
      ((removeWallBetween g cur nxt) a).walls.right = false) ∧
    ((g a).walls.bottom = false →
      ((removeWallBetween g cur nxt) a).walls.bottom = false) := by
  rw [removeWallBetween]
  split_ifs <;> constructor <;> intro h <;> simp only [updateCell] <;>
    split_ifs <;> simp_all

lemma carvedAdj_removeWall_mono {g : Grid} {cur nxt q r : Pos}
    (h : carvedAdj g q r) : carvedAdj (removeWallBetween g cur nxt) q r := by
  rcases h with ⟨h1, h2, h3⟩ | ⟨h1, h2, h3⟩ | ⟨h1, h2, h3⟩ | ⟨h1, h2, h3⟩
  · exact Or.inl ⟨h1, h2, (removeWall_flag_mono g cur nxt q).1 h3⟩
  · exact Or.inr (Or.inl ⟨h1, h2, (removeWall_flag_mono g cur nxt r).1 h3⟩)
  · exact Or.inr (Or.inr (Or.inl ⟨h1, h2,
      (removeWall_flag_mono g cur nxt q).2 h3⟩))
  · exact Or.inr (Or.inr (Or.inr ⟨h1, h2,
      (removeWall_flag_mono g cur nxt r).2 h3⟩))

lemma carvedAdj_removeWall_new_h (g : Grid) (x y : ℕ) (cur nxt : Pos)
    (hcn : cur = ((x, y) : Pos) ∧ nxt = (x + 1, y) ∨
      cur = ((x + 1, y) : Pos) ∧ nxt = (x, y)) :
    carvedAdj (removeWallBetween g cur nxt) (x, y) (x + 1, y) := by
  obtain ⟨hrW, _⟩ := removeWall_flags_horizontal g x y cur nxt hcn
  exact Or.inl ⟨rfl, rfl, by rw [hrW]; exact if_pos rfl⟩

lemma carvedAdj_removeWall_new_v (g : Grid) (x y : ℕ) (cur nxt : Pos)
    (hcn : cur = ((x, y) : Pos) ∧ nxt = (x, y + 1) ∨
      cur = ((x, y + 1) : Pos) ∧ nxt = (x, y)) :
    carvedAdj (removeWallBetween g cur nxt) (x, y) (x, y + 1) := by
  obtain ⟨hbW, _⟩ := removeWall_flags_vertical g x y cur nxt hcn
  exact Or.inr (Or.inr (Or.inl ⟨rfl, rfl, by rw [hbW]; exact if_pos rfl⟩))

lemma carvedAdj_removeWall_rev_h (g : Grid) (x y : ℕ) (cur nxt : Pos)
    (hcn : cur = ((x, y) : Pos) ∧ nxt = (x + 1, y) ∨
      cur = ((x + 1, y) : Pos) ∧ nxt = (x, y)) (q r : Pos)
    (h : carvedAdj (removeWallBetween g cur nxt) q r) :
    carvedAdj g q r ∨ (q = ((x, y) : Pos) ∧ r = (x + 1, y)) ∨
      (q = ((x + 1, y) : Pos) ∧ r = (x, y)) := by
  obtain ⟨hrW, hbW⟩ := removeWall_flags_horizontal g x y cur nxt hcn
  rcases h with ⟨h1, h2, h3⟩ | ⟨h1, h2, h3⟩ | ⟨h1, h2, h3⟩ | ⟨h1, h2, h3⟩
  · rw [hrW] at h3
    by_cases hq : q = ((x, y) : Pos)
    · subst hq
      exact Or.inr (Or.inl ⟨rfl, Prod.ext (by simpa using h1) (by simpa using h2)⟩)
    · rw [if_neg hq] at h3
      exact Or.inl (Or.inl ⟨h1, h2, h3⟩)
  · rw [hrW] at h3
    by_cases hr : r = ((x, y) : Pos)
    · subst hr
      exact Or.inr (Or.inr ⟨Prod.ext (by simpa using h1) (by simpa using h2), rfl⟩)
    · rw [if_neg hr] at h3
      exact Or.inl (Or.inr (Or.inl ⟨h1, h2, h3⟩))
  · rw [hbW] at h3
    exact Or.inl (Or.inr (Or.inr (Or.inl ⟨h1, h2, h3⟩)))
  · rw [hbW] at h3
    exact Or.inl (Or.inr (Or.inr (Or.inr ⟨h1, h2, h3⟩)))

lemma carvedAdj_removeWall_rev_v (g : Grid) (x y : ℕ) (cur nxt : Pos)
    (hcn : cur = ((x, y) : Pos) ∧ nxt = (x, y + 1) ∨
      cur = ((x, y + 1) : Pos) ∧ nxt = (x, y)) (q r : Pos)
    (h : carvedAdj (removeWallBetween g cur nxt) q r) :
    carvedAdj g q r ∨ (q = ((x, y) : Pos) ∧ r = (x, y + 1)) ∨
      (q = ((x, y + 1) : Pos) ∧ r = (x, y)) := by
  obtain ⟨hbW, hrW⟩ := removeWall_flags_vertical g x y cur nxt hcn
  rcases h with ⟨h1, h2, h3⟩ | ⟨h1, h2, h3⟩ | ⟨h1, h2, h3⟩ | ⟨h1, h2, h3⟩
  · rw [hrW] at h3
    exact Or.inl (Or.inl ⟨h1, h2, h3⟩)
  · rw [hrW] at h3
    exact Or.inl (Or.inr (Or.inl ⟨h1, h2, h3⟩))
  · rw [hbW] at h3
    by_cases hq : q = ((x, y) : Pos)
    · subst hq
      exact Or.inr (Or.inl ⟨rfl, Prod.ext (by simpa using h1) (by simpa using h2)⟩)
    · rw [if_neg hq] at h3
      exact Or.inl (Or.inr (Or.inr (Or.inl ⟨h1, h2, h3⟩)))
  · rw [hbW] at h3
    by_cases hr : r = ((x, y) : Pos)
    · subst hr
      exact Or.inr (Or.inr ⟨Prod.ext (by simpa using h1) (by simpa using h2), rfl⟩)
    · rw [if_neg hr] at h3
      exact Or.inl (Or.inr (Or.inr (Or.inr ⟨h1, h2, h3⟩)))

/-- Adding a single edge to a vertex with no incident edges preserves
acyclicity. -/
lemma isAcyclic_add_pendant (G G' : SimpleGraph Pos) (cur nxt : Pos)
    (hrev : ∀ q r, G'.Adj q r →
      G.Adj q r ∨ (q = cur ∧ r = nxt) ∨ (q = nxt ∧ r = cur))
    (hnxt : ∀ q, ¬ G.Adj nxt q) (hne : cur ≠ nxt) (hG : G.IsAcyclic) :
    G'.IsAcyclic := by
  intro v c hc
  by_cases hmem : s(cur, nxt) ∈ c.edges
  · have hnxt_mem : nxt ∈ c.support :=
      SimpleGraph.Walk.snd_mem_support_of_mem_edges c hmem
    have hc' : (c.rotate hnxt_mem).IsCycle := hc.rotate hnxt_mem
    have hnbr : ∀ z, G'.Adj nxt z → z = cur := by
      intro z hz
      rcases hrev _ _ hz with h | ⟨h1, _⟩ | ⟨_, h2⟩
      · exact absurd h (hnxt z)
      · exact absurd h1.symm hne
      · exact h2
    rcases hcons : c.rotate hnxt_mem with _ | ⟨hadj, p⟩
    · rw [hcons] at hc'
      exact hc'.ne_nil rfl
    · rw [hcons] at hc'
      rename_i u₁
      have hu₁ : u₁ = cur := hnbr u₁ hadj
      obtain ⟨z, hadj2, p', hp'⟩ :=
        SimpleGraph.Walk.exists_eq_cons_of_ne
          (show nxt ≠ u₁ by rw [hu₁]; exact Ne.symm hne) p.reverse
      have hz : z = cur := hnbr z hadj2
      have hmem2 : s(nxt, u₁) ∈ p.edges := by
        have h1 : s(nxt, z) ∈ p.reverse.edges := by
          rw [hp', SimpleGraph.Walk.edges_cons]
          exact List.mem_cons_self _ _
        rw [SimpleGraph.Walk.edges_reverse, List.mem_reverse] at h1
        rwa [hz, ← hu₁] at h1
      have hnodup := hc'.toIsCircuit.toIsTrail.edges_nodup
      rw [SimpleGraph.Walk.edges_cons] at hnodup
      exact (List.nodup_cons.1 hnodup).1 hmem2
  · have hedges : ∀ e ∈ c.edges, e ∈ G.edgeSet := by
      intro e he
      have hG' : e ∈ G'.edgeSet := c.edges_subset_edgeSet he
      induction e with
      | _ a b =>
        rw [SimpleGraph.mem_edgeSet] at hG' ⊢
        rcases hrev a b hG' with h | ⟨rfl, rfl⟩ | ⟨rfl, rfl⟩
        · exact h
        · exact absurd he hmem
        · exact absurd (by rwa [Sym2.eq_swap] at he) hmem
    exact hG (c.transfer G hedges) (hc.transfer hedges)

lemma unvisitedCount_removeWall (cols rows : ℕ) (g : Grid) (cur nxt : Pos) :
    unvisitedCount cols rows (removeWallBetween g cur nxt) =
      unvisitedCount cols rows g := by
  unfold unvisitedCount
  congr 1
  exact Finset.filter_congr (fun p _ => by rw [removeWallBetween_visited])

lemma unvisitedCount_setVisited (cols rows : ℕ) (g : Grid) (p : Pos)
    (hp : InBounds cols rows p) (hunv : (g p).visited = false) :
    unvisitedCount cols rows g =
      unvisitedCount cols rows (setVisited g p) + 1 := by
  unfold unvisitedCount
  refine filter_card_succ _ _ _ p ?_ hunv ?_ ?_
  · rw [Finset.mem_product]
    exact ⟨Finset.mem_range.2 hp.1, Finset.mem_range.2 hp.2⟩
  · rw [setVisited_visited, if_pos rfl]
    simp
  · intro b _ hbp
    rw [setVisited_visited, if_neg hbp]

/-- Pushing an unvisited neighbor: the carve step preserves the invariant
and decreases the number of unvisited cells by one. -/
lemma carveInv_push (cols rows : ℕ) {g : Grid} {cur : Pos} {rest : List Pos}
    (inv : CarveInv cols rows g (cur :: rest)) {nxt : Pos}
    (hmem : nxt ∈ unvisitedNeighbors cols rows g cur) :
    CarveInv cols rows (setVisited (removeWallBetween g cur nxt) nxt)
      (nxt :: cur :: rest) ∧
    unvisitedCount cols rows g =
      unvisitedCount cols rows
        (setVisited (removeWallBetween g cur nxt) nxt) + 1 := by
  obtain ⟨hunv, hcase⟩ := mem_unvisitedNeighbors hmem
  have hcur_bounds : InBounds cols rows cur :=
    inv.stack_bounds cur (List.mem_cons_self _ _)
  have hcur_vis : (g cur).visited = true :=
    inv.stack_visited cur (List.mem_cons_self _ _)
  have hne : cur ≠ nxt := by
    intro h
    rw [← h, hcur_vis] at hunv
    exact absurd hunv (by simp)
  have hnxt_bounds : InBounds cols rows nxt := by
    obtain ⟨hx, hy⟩ := hcur_bounds
    rcases hcase with ⟨hb, rfl⟩ | ⟨hb, rfl⟩ | ⟨hb, rfl⟩ | ⟨hb, rfl⟩
    · exact ⟨hx, by omega⟩
    · exact ⟨hb, hy⟩
    · exact ⟨hx, hb⟩
    · exact ⟨by omega, hy⟩
  have hpack : carvedAdj (removeWallBetween g cur nxt) cur nxt ∧
      (∀ q r, carvedAdj (removeWallBetween g cur nxt) q r →
        carvedAdj g q r ∨ (q = cur ∧ r = nxt) ∨ (q = nxt ∧ r = cur)) := by
    rcases hcase with ⟨hb, hq⟩ | ⟨hb, hq⟩ | ⟨hb, hq⟩ | ⟨hb, hq⟩
    · -- up neighbor
      have hcur_eq : cur = ((cur.1, cur.2 - 1 + 1) : Pos) :=
        Prod.ext rfl (by omega)
      constructor
      · have h := carvedAdj_removeWall_new_v g cur.1 (cur.2 - 1) cur nxt
          (Or.inr ⟨hcur_eq, hq⟩)
        rw [← hq, ← hcur_eq] at h
        exact carvedAdj_symm h
      · intro q r hqr
        have h := carvedAdj_removeWall_rev_v g cur.1 (cur.2 - 1) cur nxt
          (Or.inr ⟨hcur_eq, hq⟩) q r hqr
        rw [← hq, ← hcur_eq] at h
        tauto
    · -- right neighbor
      have hcur_eq : cur = ((cur.1, cur.2) : Pos) := rfl
      constructor
      · have h := carvedAdj_removeWall_new_h g cur.1 cur.2 cur nxt
          (Or.inl ⟨hcur_eq, hq⟩)
        rw [← hq, ← hcur_eq] at h
        exact h
      · intro q r hqr
        have h := carvedAdj_removeWall_rev_h g cur.1 cur.2 cur nxt
          (Or.inl ⟨hcur_eq, hq⟩) q r hqr
        rw [← hq, ← hcur_eq] at h
        tauto
    · -- down neighbor
      have hcur_eq : cur = ((cur.1, cur.2) : Pos) := rfl
      constructor
      · have h := carvedAdj_removeWall_new_v g cur.1 cur.2 cur nxt
          (Or.inl ⟨hcur_eq, hq⟩)
        rw [← hq, ← hcur_eq] at h
        exact h
      · intro q r hqr
        have h := carvedAdj_removeWall_rev_v g cur.1 cur.2 cur nxt
          (Or.inl ⟨hcur_eq, hq⟩) q r hqr
        rw [← hq, ← hcur_eq] at h
        tauto
    · -- left neighbor
      have hcur_eq : cur = ((cur.1 - 1 + 1, cur.2) : Pos) :=
        Prod.ext (by omega) rfl
      constructor
      · have h := carvedAdj_removeWall_new_h g (cur.1 - 1) cur.2 cur nxt
          (Or.inr ⟨hcur_eq, hq⟩)
        rw [← hq, ← hcur_eq] at h
        exact carvedAdj_symm h
      · intro q r hqr
        have h := carvedAdj_removeWall_rev_h g (cur.1 - 1) cur.2 cur nxt
          (Or.inr ⟨hcur_eq, hq⟩) q r hqr
        rw [← hq, ← hcur_eq] at h
        tauto
  obtain ⟨hnew1, hrev1⟩ := hpack
  have hadj2 : ∀ q r, carvedAdj (setVisited (removeWallBetween g cur nxt) nxt) q r ↔
      carvedAdj (removeWallBetween g cur nxt) q r :=
    carvedAdj_congr (setVisited_walls _ nxt)
  have hvis : ∀ a : Pos,
      ((setVisited (removeWallBetween g cur nxt) nxt) a).visited =
        if a = nxt then true else (g a).visited := by
    intro a
    rw [setVisited_visited, removeWallBetween_visited]
  have hmono : ∀ q r, carvedAdj g q r →
      carvedAdj (setVisited (removeWallBetween g cur nxt) nxt) q r :=
    fun q r h => (hadj2 q r).2 (carvedAdj_removeWall_mono h)
  have hrev2 : ∀ q r, carvedAdj (setVisited (removeWallBetween g cur nxt) nxt) q r →
      carvedAdj g q r ∨ (q = cur ∧ r = nxt) ∨ (q = nxt ∧ r = cur) :=
    fun q r h => hrev1 q r ((hadj2 q r).1 h)
  have hnew2 : carvedAdj (setVisited (removeWallBetween g cur nxt) nxt) cur nxt :=
    (hadj2 cur nxt).2 hnew1
  have hGle : carvedGraph g ≤ carvedGraph (setVisited (removeWallBetween g cur nxt) nxt) :=
    fun {q r} h => hmono q r h
  refine ⟨⟨?_, ?_, ?_, ?_, ?_, ?_, ?_, ?_⟩, ?_⟩
  · intro p hp
    rcases List.mem_cons.1 hp with rfl | hp'
    · exact hnxt_bounds
    · exact inv.stack_bounds p hp'
  · intro p hp
    rw [hvis]
    rcases List.mem_cons.1 hp with rfl | hp'
    · exact if_pos rfl
    · split
      · rfl
      · exact inv.stack_visited p hp'
  · intro p hp
    rw [hvis] at hp
    by_cases hpn : p = nxt
    · subst hpn; exact hnxt_bounds
    · rw [if_neg hpn] at hp
      exact inv.visited_bounds p hp
  · rw [hvis]
    split
    · rfl
    · exact inv.root_visited
  · intro p hp
    rw [hvis] at hp
    by_cases hpn : p = nxt
    · subst hpn
      exact SimpleGraph.Reachable.trans
        (SimpleGraph.Reachable.mono hGle (inv.reach cur hcur_vis))
        ⟨SimpleGraph.Walk.cons hnew2 SimpleGraph.Walk.nil⟩
    · rw [if_neg hpn] at hp
      exact SimpleGraph.Reachable.mono hGle (inv.reach p hp)
  · intro p q h
    rcases hrev2 p q h with hold | ⟨rfl, rfl⟩ | ⟨rfl, rfl⟩
    · obtain ⟨h1, h2⟩ := inv.edge_visited p q hold
      refine ⟨?_, ?_⟩ <;> rw [hvis]
      · split
        · rfl
        · exact h1
      · split
        · rfl
        · exact h2
    · refine ⟨?_, ?_⟩ <;> rw [hvis]
      · rw [if_neg hne]
        exact hcur_vis
      · exact if_pos rfl
    · refine ⟨?_, ?_⟩ <;> rw [hvis]
      · exact if_pos rfl
      · rw [if_neg hne]
        exact hcur_vis
  · refine isAcyclic_add_pendant (carvedGraph g) _ cur nxt hrev2 ?_ hne
      inv.acyclic
    intro q h
    have := (inv.edge_visited nxt q h).1
    rw [hunv] at this
    exact absurd this (by simp)
  · intro p hp
    rw [hvis] at hp
    by_cases hpn : p = nxt
    · subst hpn
      exact Or.inl (List.mem_cons_self _ _)
    · rw [if_neg hpn] at hp
      rcases inv.closed p hp with hmem' | hall
      · exact Or.inl (List.mem_cons_of_mem _ hmem')
      · refine Or.inr fun q hq => ?_
        rw [hvis]
        split
        · rfl
        · exact hall q hq
  · have h1 := unvisitedCount_setVisited cols rows (removeWallBetween g cur nxt)
      nxt hnxt_bounds (by rw [removeWallBetween_visited]; exact hunv)
    rwa [unvisitedCount_removeWall] at h1

/-- Popping a cell with no unvisited neighbor preserves the invariant. -/
lemma carveInv_pop (cols rows : ℕ) {g : Grid} {cur : Pos} {rest : List Pos}
    (inv : CarveInv cols rows g (cur :: rest))
    (hN : unvisitedNeighbors cols rows g cur = []) :
    CarveInv cols rows g rest := by
  have hall := unvisitedNeighbors_nil hN
  refine ⟨?_, ?_, inv.visited_bounds, inv.root_visited, inv.reach,
    inv.edge_visited, inv.acyclic, ?_⟩
  · intro p hp
    exact inv.stack_bounds p (List.mem_cons_of_mem _ hp)
  · intro p hp
    exact inv.stack_visited p (List.mem_cons_of_mem _ hp)
  · intro p hp
    rcases inv.closed p hp with hmem | h
    · rcases List.mem_cons.1 hmem with rfl | hmem'
      · exact Or.inr hall
      · exact Or.inl hmem'
    · exact Or.inr h

/-- The DFS loop, run with fuel at least its termination measure (two units
per unvisited cell plus one per stack entry), drains the stack and
preserves the invariant. -/
lemma carveLoop_spec (cols rows : ℕ) (rng : ℕ → ℕ) :
    ∀ (fuel : ℕ) (g : Grid) (stack : List Pos) (k : ℕ),
      CarveInv cols rows g stack →
      2 * unvisitedCount cols rows g + stack.length ≤ fuel →
      CarveInv cols rows (carveLoop cols rows rng fuel g stack k) [] := by
  intro fuel
  induction fuel with
  | zero =>
    intro g stack k inv hm
    have hstack : stack = [] := List.length_eq_zero.1 (by omega)
    subst hstack
    exact inv
  | succ n ih =>
    intro g stack k inv hm
    cases stack with
    | nil => exact inv
    | cons cur rest =>
      by_cases hN : (unvisitedNeighbors cols rows g cur).isEmpty = true
      · have hnil : unvisitedNeighbors cols rows g cur = [] :=
          List.isEmpty_iff.1 hN
        have hred : carveLoop cols rows rng (n + 1) g (cur :: rest) k =
            carveLoop cols rows rng n g rest k := by
          simp only [carveLoop, hN, if_true]
        rw [hred]
        refine ih g rest k (carveInv_pop cols rows inv hnil) ?_
        simp only [List.length_cons] at hm
        omega
      · have hne : unvisitedNeighbors cols rows g cur ≠ [] := by
          intro h
          rw [h] at hN
          exact hN rfl
        have hmem : (unvisitedNeighbors cols rows g cur).getD
            (rng k % (unvisitedNeighbors cols rows g cur).length) (0, 0) ∈
            unvisitedNeighbors cols rows g cur :=
          getD_mem _ (rng k) (0, 0) hne
        obtain ⟨inv', hcount⟩ := carveInv_push cols rows inv hmem
        have hred : carveLoop cols rows rng (n + 1) g (cur :: rest) k =
            carveLoop cols rows rng n
              (setVisited
                (removeWallBetween g cur
                  ((unvisitedNeighbors cols rows g cur).getD
                    (rng k % (unvisitedNeighbors cols rows g cur).length) (0, 0)))
                ((unvisitedNeighbors cols rows g cur).getD
                  (rng k % (unvisitedNeighbors cols rows g cur).length) (0, 0)))
              (((unvisitedNeighbors cols rows g cur).getD
                  (rng k % (unvisitedNeighbors cols rows g cur).length) (0, 0)) ::
                cur :: rest) (k + 1) := by
          simp only [carveLoop]
          rw [if_neg hN]
        rw [hred]
        refine ih _ _ _ inv' ?_
        simp only [List.length_cons] at hm ⊢
        omega

/-- A visited set containing (0,0) and closed under grid adjacency covers
the whole grid. -/
lemma visited_all_of_closed (cols rows : ℕ) {g : Grid}
    (h0 : (g (0, 0)).visited = true)
    (hcl : ∀ p, (g p).visited = true →
      ∀ q, gridAdj cols rows p q → (g q).visited = true) :
    ∀ p : Pos, InBounds cols rows p → (g p).visited = true := by
  have key : ∀ n (x y : ℕ), x + y = n → x < cols → y < rows →
      (g (x, y)).visited = true := by
    intro n
    induction n using Nat.strong_induction_on with
    | _ n ihn =>
      intro x y hxy hx hy
      rcases Nat.eq_zero_or_pos x with rfl | hxpos
      · rcases Nat.eq_zero_or_pos y with rfl | hypos
        · exact h0
        · have hprev := ihn (0 + (y - 1)) (by omega) 0 (y - 1) rfl hx (by omega)
          exact hcl (0, y - 1) hprev (0, y)
            ⟨⟨hx, by omega⟩, ⟨hx, hy⟩, Or.inr (Or.inr (Or.inl (by
              rw [Prod.mk.injEq]
              exact ⟨rfl, by omega⟩)))⟩
      · have hprev := ihn ((x - 1) + y) (by omega) (x - 1) y rfl (by omega) hy
        exact hcl (x - 1, y) hprev (x, y)
          ⟨⟨by omega, hy⟩, ⟨hx, hy⟩, Or.inl (by
            rw [Prod.mk.injEq]
            exact ⟨by omega, rfl⟩)⟩
  intro p hp
  obtain ⟨px, py⟩ := p
  exact key (px + py) px py rfl hp.1 hp.2

/-- The invariant holds at loop entry: only (0,0) visited, no carved
edges, (0,0) on the stack. -/
lemma carveInv_init (cols rows : ℕ) (hc : 0 < cols) (hr : 0 < rows) :
    CarveInv cols rows (setVisited initGrid (0, 0)) [(0, 0)] := by
  have hvis : ∀ a : Pos, ((setVisited initGrid (0, 0)) a).visited =
      if a = ((0, 0) : Pos) then true else false := by
    intro a
    rw [setVisited_visited]
    split <;> rfl
  have hwalls : ∀ a : Pos, ((setVisited initGrid (0, 0)) a).walls =
      ⟨true, true, true, true⟩ := fun a => by rw [setVisited_walls]; rfl
  have hnoadj : ∀ p q : Pos, ¬ carvedAdj (setVisited initGrid (0, 0)) p q := by
    intro p q h
    rcases h with ⟨_, _, h3⟩ | ⟨_, _, h3⟩ | ⟨_, _, h3⟩ | ⟨_, _, h3⟩ <;>
      rw [hwalls] at h3 <;> exact absurd h3 (by simp)
  refine ⟨?_, ?_, ?_, ?_, ?_, ?_, ?_, ?_⟩
  · intro p hp
    rw [List.mem_singleton] at hp
    subst hp
    exact ⟨hc, hr⟩
  · intro p hp
    rw [List.mem_singleton] at hp
    subst hp
    rw [hvis]
    exact if_pos rfl
  · intro p hp
    rw [hvis] at hp
    by_cases hp0 : p = ((0, 0) : Pos)
    · subst hp0
      exact ⟨hc, hr⟩
    · rw [if_neg hp0] at hp
      exact absurd hp (by simp)
  · rw [hvis]
    exact if_pos rfl
  · intro p hp
    rw [hvis] at hp
    by_cases hp0 : p = ((0, 0) : Pos)
    · subst hp0
      exact SimpleGraph.Reachable.refl _
    · rw [if_neg hp0] at hp
      exact absurd hp (by simp)
  · intro p q h
    exact absurd h (hnoadj p q)
  · intro v c hcyc
    cases c with
    | nil => exact hcyc.ne_nil rfl
    | cons hadj p => exact hnoadj _ _ hadj
  · intro p hp
    rw [hvis] at hp
    by_cases hp0 : p = ((0, 0) : Pos)
    · subst hp0
      exact Or.inl (List.mem_singleton.2 rfl)
    · rw [if_neg hp0] at hp
      exact absurd hp (by simp)

lemma unvisitedCount_init (cols rows : ℕ) (hc : 0 < cols) (hr : 0 < rows) :
    2 * unvisitedCount cols rows (setVisited initGrid (0, 0)) + 1 ≤
      2 * (cols * rows) := by
  have hmem : ((0, 0) : Pos) ∈ (Finset.range cols) ×ˢ (Finset.range rows) := by
    rw [Finset.mem_product]
    exact ⟨Finset.mem_range.2 hc, Finset.mem_range.2 hr⟩
  have hsub : (((Finset.range cols) ×ˢ (Finset.range rows)).filter
      (fun p => ((setVisited initGrid (0, 0)) p).visited = false)) ⊆
      ((Finset.range cols) ×ˢ (Finset.range rows)).erase (0, 0) := by
    intro b hb
    rw [Finset.mem_filter] at hb
    refine Finset.mem_erase.2 ⟨?_, hb.1⟩
    intro hb0
    have := hb.2
    rw [hb0, setVisited_visited, if_pos rfl] at this
    exact absurd this (by simp)
  have hcard : unvisitedCount cols rows (setVisited initGrid (0, 0)) ≤
      cols * rows - 1 := by
    calc unvisitedCount cols rows (setVisited initGrid (0, 0)) ≤
        (((Finset.range cols) ×ˢ (Finset.range rows)).erase (0, 0)).card :=
          Finset.card_le_card hsub
      _ = ((Finset.range cols) ×ˢ (Finset.range rows)).card - 1 :=
          Finset.card_erase_of_mem hmem
      _ = cols * rows - 1 := by
          rw [Finset.card_product, Finset.card_range, Finset.card_range]
  have hcr : 0 < cols * rows := Nat.mul_pos hc hr
  omega

/-- **C5.** For every `cols, rows ≥ 1` and every sequence of random draws,
the depth-first backtracking carve phase of `generate` produces a spanning
tree over the grid: every cell is reachable from (0,0) through removed
walls, the carved graph has no cycles, and there is exactly one simple
path between any two cells. -/
theorem carve_spanning_tree (cols rows : ℕ) (rng : ℕ → ℕ)
    (hc : 0 < cols) (hr : 0 < rows) :
    (∀ p : Pos, InBounds cols rows p →
      (carvedGraph (carve cols rows rng)).Reachable (0, 0) p) ∧
    (carvedGraph (carve cols rows rng)).IsAcyclic ∧
    (∀ p q : Pos, InBounds cols rows p → InBounds cols rows q →
      ∃! w : (carvedGraph (carve cols rows rng)).Walk p q, w.IsPath) := by
  have hfin : CarveInv cols rows (carve cols rows rng) [] :=
    carveLoop_spec cols rows rng (2 * (cols * rows))
      (setVisited initGrid (0, 0)) [(0, 0)] 0 (carveInv_init cols rows hc hr)
      (by simpa using unvisitedCount_init cols rows hc hr)
  have hall : ∀ p : Pos, InBounds cols rows p →
      ((carve cols rows rng) p).visited = true := by
    refine visited_all_of_closed cols rows hfin.root_visited ?_
    intro p hp q hq
    rcases hfin.closed p hp with hmem | h
    · exact absurd hmem (List.not_mem_nil p)
    · exact h q hq
  have hreach : ∀ p : Pos, InBounds cols rows p →
      (carvedGraph (carve cols rows rng)).Reachable (0, 0) p :=
    fun p hp => hfin.reach p (hall p hp)
  refine ⟨hreach, hfin.acyclic, ?_⟩
  intro p q hp hq
  obtain ⟨w⟩ := ((hreach p hp).symm).trans (hreach q hq)
  refine ⟨(w.toPath : (carvedGraph (carve cols rows rng)).Walk p q),
    w.toPath.2, ?_⟩
  intro y hy
  have hu := SimpleGraph.isAcyclic_iff_path_unique.1 hfin.acyclic
    ⟨y, hy⟩ w.toPath
  exact Subtype.ext_iff.1 hu

/-- Witness for `carve_spanning_tree` on a concrete 2×2 maze. -/
theorem carve_spanning_tree_witness :
    0 < 2 ∧ 0 < 2 ∧
    ((∀ p : Pos, InBounds 2 2 p →
        (carvedGraph (carve 2 2 fun _ => 0)).Reachable (0, 0) p) ∧
      (carvedGraph (carve 2 2 fun _ => 0)).IsAcyclic ∧
      (∀ p q : Pos, InBounds 2 2 p → InBounds 2 2 q →
        ∃! w : (carvedGraph (carve 2 2 fun _ => 0)).Walk p q, w.IsPath)) :=
  ⟨by norm_num, by norm_num,
    carve_spanning_tree 2 2 (fun _ => 0) (by norm_num) (by norm_num)⟩

/-- **C8 counterexample.** `generate` does not reject cols ≤ 0 with an
explicit invalid-argument condition: it fails with the runtime TypeError of
the `grid[0][0]` dereference instead. -/
theorem generate_no_explicit_rejection :
    generate 0 1 (fun _ => 0) (fun _ => 0) ≠
      Except.error GenError.invalidArgument := by
  rw [generate, if_neg (by omega)]
  simp

/-- **C8 (amended).** For `cols ≤ 0` or `rows ≤ 0` the source performs no
argument validation: `stack[0].visited = true` dereferences the missing
cell `grid[0][0]` and the call fails with a runtime TypeError (never
silently returning a wall list, but not an explicit invalid-argument
rejection either). -/
theorem generate_nonpos_typeError (cols rows : ℤ) (rngN : ℕ → ℕ)
    (rngQ : ℕ → ℚ) (h : cols ≤ 0 ∨ rows ≤ 0) :
    generate cols rows rngN rngQ = Except.error GenError.typeError := by
  rcases h with h | h <;> rw [generate, if_neg (by omega)]

/-- Witness for `generate_nonpos_typeError` at cols = 0. -/
theorem generate_nonpos_typeError_witness :
    ((0 : ℤ) ≤ 0 ∨ (1 : ℤ) ≤ 0) ∧
    generate 0 1 (fun _ => 0) (fun _ => 0) =
      Except.error GenError.typeError :=
  ⟨Or.inl (by norm_num),
    generate_nonpos_typeError 0 1 (fun _ => 0) (fun _ => 0)
      (Or.inl (by norm_num))⟩

end MazeGenerator

end

end PhotonMaze
